import Mathlib

/-!
A verification development for the `gophers` code-knowledge-graph extractor.

The Go sources are shallowly embedded: each Go function used by a claim is
translated into an executable Lean definition of the same name (camel-cased
where Go exports it).  Go maps are represented by association lists carrying
one concrete iteration order: Go's map iteration order is unspecified, so any
list order is a possible run, and properties claimed for "any run" are
quantified over all such lists.  Go `int` is modelled by `Int`.

Strings are manipulated through `List Char` so that every definition reduces
inside the kernel.
-/

namespace Gophers

/-- `List.foldr` with the initial accumulator written first (the shape of a
Go `for` loop over a slice building a result back to front). -/
abbrev foldrI {α β : Type} (init : β) (l : List α) (f : α → β → β) : β :=
  l.foldr f init

/-- `List.foldl` with the initial accumulator written first. -/
abbrev foldlI {α β : Type} (init : β) (l : List α) (f : β → α → β) : β :=
  l.foldl f init

/-! ### String helpers (strings package / path / filepath analogues) -/

/-- `strings.ReplaceAll p "\\" "."` for the single-character pattern used by
`toNodeID`: replace every backslash by a dot. -/
def replaceBackslashDot (s : String) : String :=
  String.mk (s.toList.map (fun c => if c = '\\' then '.' else c))

def listEndsWith (s suf : List Char) : Bool :=
  List.isSuffixOf suf s

/-- `strings.TrimSuffix s suf`. -/
def trimSuffix (s suf : String) : String :=
  if listEndsWith s.toList suf.toList then
    String.mk (s.toList.take (s.toList.length - suf.toList.length))
  else s

/-- `strings.TrimLeft s "."`: drop leading dots. -/
def trimLeftDots (s : String) : String :=
  String.mk (s.toList.dropWhile (fun c => c = '.'))

/-- `strings.TrimPrefix s pre`. -/
def trimPre (s pre : String) : String :=
  if List.isPrefixOf pre.toList s.toList then
    String.mk (s.toList.drop pre.toList.length)
  else s

def startsWith (s pre : String) : Bool :=
  List.isPrefixOf pre.toList s.toList

/-- `strings.TrimLeft s "*[]"` as used by `GenerateTypedEdges`. -/
def trimLeftStarBracket (s : String) : String :=
  String.mk (s.toList.dropWhile (fun c => c = '*' || c = '[' || c = ']'))

/-- `strings.Trim s "\""`: drop quote characters from both ends. -/
def trimQuotes (s : String) : String :=
  String.mk (((s.toList.dropWhile (fun c => c = '"')).reverse.dropWhile
    (fun c => c = '"')).reverse)

/-- Split a character list at every slash. -/
def splitSlash : List Char → List (List Char)
  | [] => [[]]
  | c :: cs =>
    let rest := splitSlash cs
    if c = '/' then [] :: rest
    else match rest with
      | [] => [[c]]
      | r :: rs => (c :: r) :: rs

/-- `filepath.Dir` / `path.Dir` on slash-separated paths (the sources only
apply it to `filepath.ToSlash`-normalized paths). -/
def dirOf (p : String) : String :=
  let parts := splitSlash p.toList
  match parts.dropLast with
  | [] => "."
  | [[]] => "/"
  | ps => String.mk (List.intercalate ['/'] ps)

/-- `path.Base` on a slash-separated import path: the last component. -/
def pathBase (p : String) : String :=
  match (splitSlash p.toList).getLast? with
  | some last => if last = [] then "/" else String.mk last
  | none => p

/-- `strings.ReplaceAll s "." "/"` (used by `GenerateProjectIncludesEdges`). -/
def replaceDotSlash (s : String) : String :=
  String.mk (s.toList.map (fun c => if c = '.' then '/' else c))

/-- `filepath.Ext`: the suffix beginning at the final dot of the final
path element, `""` when that element has no dot. -/
def extOf (p : String) : String :=
  let base := ((splitSlash p.toList).getLast?).getD []
  if base.contains '.' then
    String.mk ('.' :: (base.reverse.takeWhile (fun c => c ≠ '.')).reverse)
  else ""

/-! ### `toNodeID` and `isPrimitiveType` (utils) -/

/-- `toNodeID`: replace backslashes with dots, strip a trailing `.go`,
trim leading dots. -/
def toNodeID (path : String) : String :=
  trimLeftDots (trimSuffix (replaceBackslashDot path) ".go")

def isPrimitiveType (name : String) : Bool :=
  name = "int" || name = "int8" || name = "int16" || name = "int32" ||
  name = "int64" || name = "uint" || name = "uint8" || name = "uint16" ||
  name = "uint32" || name = "uint64" || name = "float32" || name = "float64" ||
  name = "complex64" || name = "complex128" || name = "byte" || name = "rune" ||
  name = "bool" || name = "string" || name = "error"

/-- `cases.Title(language.English).String` restricted to the single lowercase
ASCII words that occur as symbol kinds: capitalize the first letter. -/
def titleCase (s : String) : String :=
  match s.toList with
  | [] => ""
  | c :: cs => String.mk (c.toUpper :: cs)

/-- `KindToLabel` from graph_generator.go. -/
def KindToLabel (kind : String) : List String :=
  if kind = "field" || kind = "var" || kind = "param" then ["Variable"]
  else if kind = "func" || kind = "method" then ["Operation", "Type"]
  else if kind = "type" || kind = "struct" || kind = "interface" then ["Type"]
  else [titleCase kind]

/-! ### Core data model -/

/-- `ASTNodePosition`. -/
structure ASTNodePosition where
  uri : String
  line : Int
  character : Int
deriving DecidableEq, Repr

/-- `ModifiedDefinitionInfo`. -/
structure ModifiedDefinitionInfo where
  name : String
  uri : String
  line : Int
  character : Int
  kind : String
  type : String
  receiverType : String
  packageName : String
deriving DecidableEq, Repr

mutual
/-- `SimplifiedASTNode`.  `newNode` always populates `Position`, so the model
makes the position mandatory; the source's occasional `Position == nil`
checks are constantly false on builder-produced trees.  The children are a
dedicated list type so that tree walks are structural mutual recursions. -/
inductive SimplifiedASTNode where
  | mk (type name : String) (children : SASTList)
       (position : ASTNodePosition)
       (declaredAt : Option ModifiedDefinitionInfo)

/-- The `Children` sequence of a `SimplifiedASTNode`. -/
inductive SASTList where
  | nil
  | cons (head : SimplifiedASTNode) (tail : SASTList)
end

namespace SASTList

def toList : SASTList → List SimplifiedASTNode
  | nil => []
  | cons h t => h :: toList t

def ofList : List SimplifiedASTNode → SASTList
  | [] => nil
  | h :: t => cons h (ofList t)

def isNil : SASTList → Bool
  | nil => true
  | cons _ _ => false

end SASTList

/-- Children literal shorthand. -/
def sl : List SimplifiedASTNode → SASTList := SASTList.ofList

namespace SimplifiedASTNode

def type : SimplifiedASTNode → String | mk t _ _ _ _ => t
def name : SimplifiedASTNode → String | mk _ n _ _ _ => n

/-- The children as a plain list (the view used by non-recursive scans). -/
def children : SimplifiedASTNode → List SimplifiedASTNode
  | mk _ _ c _ _ => c.toList

def position : SimplifiedASTNode → ASTNodePosition | mk _ _ _ p _ => p
def declaredAt : SimplifiedASTNode → Option ModifiedDefinitionInfo
  | mk _ _ _ _ d => d

end SimplifiedASTNode

abbrev MDI := ModifiedDefinitionInfo
abbrev SAST := SimplifiedASTNode

/-- `fmt.Sprintf("%s:%d:%d", uri, line, character)`. -/
def posKeyOf (uri : String) (line character : Int) : String :=
  uri ++ ":" ++ toString line ++ ":" ++ toString character

def posKeyOfPos (p : ASTNodePosition) : String :=
  posKeyOf p.uri p.line p.character

def posKeyOfDef (d : MDI) : String :=
  posKeyOf d.uri d.line d.character

/-- One run's view of a Go `map[string]*ModifiedDefinitionInfo`: the list of
entries in that run's iteration order. -/
abbrev SymList := List (String × MDI)

/-- One run's view of `map[string]*SimplifiedASTNode`. -/
abbrev SastList := List (String × SAST)

/-! ### Graph structures -/

structure NodeData where
  id : String
  labels : List String
  properties : List (String × String)
deriving DecidableEq, Repr

structure GraphNode where
  data : NodeData
deriving DecidableEq, Repr

structure EdgeData where
  id : String
  label : String
  source : String
  target : String
  properties : List (String × String)
deriving DecidableEq, Repr

structure GraphEdge where
  data : EdgeData
deriving DecidableEq, Repr

/-! ### GenerateGraphNodes

The `filepath.Walk` over the source root is external input; one run's walk is
modelled as the list of visited entries in visit order (after `SkipDir`
pruning of `intermediate_representation` subtrees, which the walk provider
performs). -/

structure FSEntry where
  path : String
  isDir : Bool
deriving DecidableEq, Repr

/-- The folder/file portion of `GenerateGraphNodes`'s `filepath.Walk`
callback, threading the `seen` set.  Paths arrive `filepath.ToSlash`
normalized. -/
def genFsNodes : List FSEntry → List String → List GraphNode × List String
  | [], seen => ([], seen)
  | e :: rest, seen =>
    if e.isDir && pathBase e.path = "intermediate_representation" then
      genFsNodes rest seen
    else if e.isDir then
      let id := toNodeID e.path
      if seen.contains id then genFsNodes rest seen
      else
        let node : GraphNode := ⟨⟨id, ["Folder"],
          [("qualifiedName", e.path), ("simpleName", pathBase e.path)]⟩⟩
        let (ns, seen2) := genFsNodes rest (id :: seen)
        (node :: ns, seen2)
    else if listEndsWith e.path.toList ".go".toList then
      let id := toNodeID (e.path ++ ".go")
      if seen.contains id then genFsNodes rest seen
      else
        let node : GraphNode := ⟨⟨id, ["File"],
          [("qualifiedName", e.path), ("simpleName", pathBase e.path)]⟩⟩
        let (ns, seen2) := genFsNodes rest (id :: seen)
        (node :: ns, seen2)
    else genFsNodes rest seen

/-- The declaration node built for a symbol-table entry. -/
def mkDeclNode (d : MDI) : GraphNode :=
  ⟨⟨toNodeID (posKeyOfDef d), KindToLabel d.kind,
    [("simpleName", d.name), ("qualifiedName", posKeyOfDef d),
     ("kind", d.kind)]⟩⟩

/-- Skip condition
`def.Kind == "local" && def.Kind != "param" && ... != "var"`. -/
def skipLocal (d : MDI) : Bool :=
  d.kind = "local" && d.kind ≠ "param" && d.kind ≠ "field" && d.kind ≠ "var"

/-- Skip condition: primitive-named `type`/`struct`/`interface` entries. -/
def skipPrimitive (d : MDI) : Bool :=
  isPrimitiveType d.name &&
    (d.kind = "type" || d.kind = "struct" || d.kind = "interface")

/-- The declaration-node loop of `GenerateGraphNodes` over the symbol table,
threading `seen`. -/
def genDeclNodes : SymList → List String → List GraphNode × List String
  | [], seen => ([], seen)
  | (_, d) :: rest, seen =>
    if skipLocal d then genDeclNodes rest seen
    else
      let id := toNodeID (posKeyOfDef d)
      if seen.contains id then genDeclNodes rest seen
      else if skipPrimitive d then genDeclNodes rest seen
      else
        let (ns, seen2) := genDeclNodes rest (id :: seen)
        (mkDeclNode d :: ns, seen2)

/-- The package-node loop of `GenerateGraphNodes` over one root's children,
threading `addedPackages`. -/
def genScopeChildren : List SAST → List String →
    List GraphNode × List String
  | [], acc => ([], acc)
  | child :: cs, acc =>
    if child.type = "Package" && child.name ≠ "" then
      let pkgPath := trimPre child.position.uri "file://"
      let dir := dirOf pkgPath
      let qualified := dir ++ "/" ++ child.name
      let id := toNodeID qualified
      if acc.contains id then genScopeChildren cs acc
      else
        let node : GraphNode := ⟨⟨id ++ ".package", ["Scope"],
          [("qualifiedName", qualified ++ ".package"),
           ("simpleName", child.name)]⟩⟩
        let (ns, acc2) := genScopeChildren cs (id :: acc)
        (node :: ns, acc2)
    else genScopeChildren cs acc

/-- The package (`Scope`) node loop of `GenerateGraphNodes`. -/
def genScopeNodes : SastList → List String → List GraphNode
  | [], _ => []
  | (_, root) :: rest, added =>
    let (ns, added2) := genScopeChildren root.children added
    ns ++ genScopeNodes rest added2

/-- `GenerateGraphNodes` (error-free walk): project node, folder/file nodes,
declaration nodes, scope nodes. -/
def GenerateGraphNodes (sourceRoot : String) (walk : List FSEntry)
    (symbols : SymList) (simplifiedASTs : SastList) : List GraphNode :=
  let projectNode : GraphNode := ⟨⟨"project:" ++ toNodeID sourceRoot,
    ["Project"],
    [("qualifiedName", sourceRoot), ("simpleName", pathBase sourceRoot)]⟩⟩
  let fsPair := genFsNodes walk []
  let declPair := genDeclNodes symbols fsPair.2
  projectNode :: fsPair.1 ++ declPair.1 ++ genScopeNodes simplifiedASTs []

/-- The IDs of a node list. -/
def nodeIds (nodes : List GraphNode) : List String :=
  nodes.map (fun n => n.data.id)

/-! ### Edge passes -/

/-- `AddEdge`. -/
def AddEdge (fromID toID label : String) (props : List (String × String)) :
    GraphEdge :=
  ⟨⟨fromID ++ "->" ++ toID ++ ":" ++ label, label, fromID, toID, props⟩⟩

/-- Go map last-write-wins insertion, with `find?` as lookup. -/
def mapInsert (m : List (String × String)) (k v : String) :
    List (String × String) :=
  (k, v) :: m.filter (fun p => p.1 ≠ k)

def mapLookup (m : List (String × String)) (k : String) : Option String :=
  (m.find? (fun p => p.1 = k)).map (fun p => p.2)

/-- `GenerateFolderContainsEdges` over one run's walk. -/
def GenerateFolderContainsEdges (sourceRoot : String) (walk : List FSEntry) :
    List GraphEdge :=
  foldrI [] walk fun e acc =>
    if e.path = sourceRoot then acc
    else
      let parentID := toNodeID (dirOf e.path)
      if e.isDir then
        let childID := toNodeID e.path
        ⟨⟨parentID ++ "->" ++ childID ++ ".contains", "contains", parentID,
          childID, [("kind", "FolderContains")]⟩⟩ :: acc
      else if listEndsWith e.path.toList ".go".toList then
        let childID := toNodeID (e.path ++ ".go")
        ⟨⟨parentID ++ "->" ++ childID ++ ".contains", "contains", parentID,
          childID, [("kind", "FolderContains")]⟩⟩ :: acc
      else acc

/-- `GenerateFileDeclaresScopeEdges`. -/
def GenerateFileDeclaresScopeEdges (simplifiedASTs : SastList) :
    List GraphEdge :=
  foldrI [] simplifiedASTs fun (_, root) acc =>
    (foldrI [] root.children fun child acc2 =>
      if child.type = "Package" && child.name ≠ "" then
        let trimmed := trimPre child.position.uri "file://"
        let fileID := toNodeID (trimmed ++ ".go")
        let dir := dirOf trimmed
        let qualified := dir ++ "/" ++ child.name
        let scopeID := toNodeID (qualified ++ ".package")
        ⟨⟨fileID ++ "->" ++ scopeID ++ ".declares", "declares", fileID,
          scopeID, [("kind", "Scope"), ("name", child.name)]⟩⟩ :: acc2
      else acc2) ++ acc

/-- `GenerateFileDeclaresEdges`. -/
def GenerateFileDeclaresEdges (symbols : SymList) : List GraphEdge :=
  foldrI [] symbols fun (symKey, d) acc =>
    if d.kind ≠ "type" && d.kind ≠ "struct" && d.kind ≠ "interface" &&
        d.kind ≠ "func" && d.kind ≠ "method" && d.kind ≠ "var" then acc
    else if d.kind = "var" && d.receiverType ≠ "" then acc
    else
      let trimmed := trimPre d.uri "file://"
      let fileID := toNodeID (trimmed ++ ".go")
      let defID := toNodeID symKey
      ⟨⟨fileID ++ "->" ++ defID ++ ".declares", "declares", fileID, defID,
        [("kind", d.kind), ("name", d.name)]⟩⟩ :: acc

/-- The first-match name scan of `GenerateInvokesEdges`:
`for symPosKey, def := range symbols { if match { ...; break } }`.
The scan order is the run's iteration order of the `symbols` map. -/
def findCallee (symbols : SymList) (n : String) : Option (String × MDI) :=
  symbols.find? fun kd =>
    kd.2.name = n && (kd.2.kind = "func" || kd.2.kind = "method")

mutual
/-- The recursive `walk` of `GenerateInvokesEdges`.  `currentFuncID` is a
single mutable variable shared by the whole traversal of one tree, so it is
threaded as state: a `Function`/`Method` sets it for its children and
resets it to `""` afterwards (also for its later siblings);
`Call`/`MethodCall` nodes are not descended into. -/
def invokesWalk (symbols : SymList) : SAST → String →
    List GraphEdge × String
  | .mk t n cs p _, cur =>
    if t = "Function" || t = "Method" then
      let fid := toNodeID (posKeyOfPos p)
      let (es, _) := invokesWalkL symbols cs fid
      (es, "")
    else if t = "Call" || t = "MethodCall" then
      (if n = "" || cur = "" then []
       else
         match findCallee symbols n with
         | some (symPosKey, _) =>
           [AddEdge cur (toNodeID symPosKey) "invokes" []]
         | none => [], cur)
    else invokesWalkL symbols cs cur

def invokesWalkL (symbols : SymList) : SASTList → String →
    List GraphEdge × String
  | .nil, cur => ([], cur)
  | .cons c rest, cur =>
    let (es1, cur1) := invokesWalk symbols c cur
    let (es2, cur2) := invokesWalkL symbols rest cur1
    (es1 ++ es2, cur2)
end

/-- `GenerateInvokesEdges`. -/
def GenerateInvokesEdges (simplifiedASTs : SastList) (symbols : SymList) :
    List GraphEdge :=
  foldrI [] simplifiedASTs fun (_, root) acc =>
    (invokesWalk symbols root "").1 ++ acc

/-- The `typeNameToID` map of `GenerateReturnsEdges`: non-primitive
`type`/`struct`/`interface` entries, name mapped to `toNodeID key`,
later map writes overwriting earlier ones. -/
def returnsTypeMap (symbols : SymList) : List (String × String) :=
  foldlI [] symbols fun m (key, d) =>
    if (d.kind = "type" || d.kind = "struct" || d.kind = "interface") &&
        !isPrimitiveType d.name then
      mapInsert m d.name (toNodeID key)
    else m

/-- The per-node emission of `GenerateReturnsEdges` at a `Function`/`Method`
node: scan `Results` wrappers among the children. -/
def returnsHere (tm : List (String × String)) (nodeName : String)
    (sourceID : String) (children : List SAST) : List GraphEdge :=
  foldrI [] children fun child acc =>
    if child.type = "Results" then
      (foldrI [] child.children fun result acc2 =>
        (foldrI [] result.children fun ret acc3 =>
          match ret.declaredAt with
          | some da =>
            match mapLookup tm da.name with
            | some targetID =>
              (⟨⟨sourceID ++ "->" ++ targetID ++ ".returns", "returns",
                sourceID, targetID,
                [("from", nodeName), ("to", da.name)]⟩⟩ :
                GraphEdge) :: acc3
            | none => acc3
          | none => acc3) ++ acc2) ++ acc
    else acc

mutual
def returnsWalk (tm : List (String × String)) : SAST → List GraphEdge
  | .mk t n cs p _ =>
    (if t = "Function" || t = "Method" then
      returnsHere tm n (toNodeID (posKeyOfPos p)) cs.toList
    else []) ++ returnsWalkL tm cs

def returnsWalkL (tm : List (String × String)) : SASTList → List GraphEdge
  | .nil => []
  | .cons c rest => returnsWalk tm c ++ returnsWalkL tm rest
end

/-- `GenerateReturnsEdges`. -/
def GenerateReturnsEdges (simplifiedASTs : SastList) (symbols : SymList) :
    List GraphEdge :=
  let tm := returnsTypeMap symbols
  foldrI [] simplifiedASTs fun (_, root) acc =>
    returnsWalk tm root ++ acc

/-- Go map lookup `symbols[paramKey]` (keys are unique in a Go map, so the
first association with the key is the value). -/
def symLookup (symbols : SymList) (key : String) : Option MDI :=
  (symbols.find? (fun kd => kd.1 = key)).map (fun kd => kd.2)

/-- The per-node emission of `GenerateParameterizesEdges` at a
`Function`/`Method` node: idents under `Params → Field` whose position keys
a `param` entry. -/
def parameterizesHere (symbols : SymList) (funcID : String)
    (children : List SAST) : List GraphEdge :=
  foldrI [] children fun child acc =>
    if child.type = "Params" then
      (foldrI [] child.children fun field acc2 =>
        (foldrI [] field.children fun ident acc3 =>
          if ident.type = "Ident" then
            let paramKey := posKeyOfPos ident.position
            match symLookup symbols paramKey with
            | some d =>
              if d.kind = "param" then
                let paramID := toNodeID paramKey
                (⟨⟨paramID ++ "->" ++ funcID ++ ".parameterizes",
                  "parameterizes", paramID, funcID,
                  [("name", d.name)]⟩⟩ : GraphEdge) :: acc3
              else acc3
            | none => acc3
          else acc3) ++ acc2) ++ acc
    else acc

mutual
def parameterizesWalk (symbols : SymList) : SAST → List GraphEdge
  | .mk t _ cs p _ =>
    (if t = "Function" || t = "Method" then
      parameterizesHere symbols (toNodeID (posKeyOfPos p)) cs.toList
    else []) ++ parameterizesWalkL symbols cs

def parameterizesWalkL (symbols : SymList) : SASTList → List GraphEdge
  | .nil => []
  | .cons c rest =>
    parameterizesWalk symbols c ++ parameterizesWalkL symbols rest
end

/-- `GenerateParameterizesEdges`. -/
def GenerateParameterizesEdges (simplifiedASTs : SastList)
    (symbols : SymList) : List GraphEdge :=
  foldrI [] simplifiedASTs fun (_, root) acc =>
    parameterizesWalk symbols root ++ acc

/-- The per-node emission of `GenerateTypeEncapsulatesVariableEdges` at a
`Struct` node, with its synthetic `<uri>:<line>:5` struct key. -/
def encVarHere (pos : ASTNodePosition) (children : List SAST) :
    List GraphEdge :=
  let structKey := pos.uri ++ ":" ++ toString pos.line ++ ":5"
  let structID := toNodeID structKey
  foldrI [] children fun field acc =>
    if field.type ≠ "Field" then acc
    else
      (foldrI [] field.children fun ident acc2 =>
        if ident.type ≠ "Ident" then acc2
        else
          let fieldKey := posKeyOfPos ident.position
          let fieldID := toNodeID fieldKey
          (⟨⟨structID ++ "->" ++ fieldID ++ ".encapsulates",
            "encapsulates", structID, fieldID,
            [("field", ident.name)]⟩⟩ : GraphEdge) :: acc2) ++ acc

mutual
def encVarWalk : SAST → List GraphEdge
  | .mk t _ cs p _ =>
    (if t = "Struct" then encVarHere p cs.toList else []) ++ encVarWalkL cs

def encVarWalkL : SASTList → List GraphEdge
  | .nil => []
  | .cons c rest => encVarWalk c ++ encVarWalkL rest
end

/-- `GenerateTypeEncapsulatesVariableEdges`. -/
def GenerateTypeEncapsulatesVariableEdges (simplifiedASTs : SastList) :
    List GraphEdge :=
  foldrI [] simplifiedASTs fun (_, root) acc =>
    encVarWalk root ++ acc

/-- The `typeNameToID` loop of `GenerateTypeEncapsulatesOperationEdges`,
threading the map accumulator in iteration order. -/
def encOpTypeMapGo : SymList → List (String × String) →
    List (String × String)
  | [], m => m
  | (id, sym) :: rest, m =>
    encOpTypeMapGo rest
      (if sym.kind = "struct" || sym.kind = "interface" then
        mapInsert m sym.name id
      else m)

/-- The `typeNameToID` map of `GenerateTypeEncapsulatesOperationEdges`:
`struct`/`interface` entries, name mapped to the RAW map key (not
`toNodeID`), later writes overwriting earlier ones. -/
def encOpTypeMap (symbols : SymList) : List (String × String) :=
  encOpTypeMapGo symbols []

/-- `GenerateTypeEncapsulatesOperationEdges`. -/
def GenerateTypeEncapsulatesOperationEdges (symbols : SymList) :
    List GraphEdge :=
  let tm := encOpTypeMap symbols
  foldrI [] symbols fun (id, sym) acc =>
    if sym.kind = "method" && sym.receiverType ≠ "" then
      match mapLookup tm sym.receiverType with
      | some typeID =>
        ⟨⟨typeID ++ "_encapsulates_" ++ id, "encapsulates", typeID, id,
          []⟩⟩ :: acc
      | none => acc
    else acc

/-- The `typeNodeMap` of `GenerateTypedEdges`: qualified type name to
`toNodeID key`. -/
def typedTypeMap (symbols : SymList) : List (String × String) :=
  foldlI [] symbols fun m (key, d) =>
    if d.kind = "struct" || d.kind = "interface" || d.kind = "type" then
      let qualified :=
        if d.packageName ≠ "" then d.packageName ++ "." ++ d.name else d.name
      mapInsert m qualified (toNodeID key)
    else m

/-- `GenerateTypedEdges`. -/
def GenerateTypedEdges (symbols : SymList) : List GraphEdge :=
  let tm := typedTypeMap symbols
  foldrI [] symbols fun (symKey, d) acc =>
    if d.kind ≠ "param" && d.kind ≠ "var" && d.kind ≠ "field" then acc
    else
      let typeName := trimLeftStarBracket d.type
      match mapLookup tm typeName with
      | some typeID =>
        ⟨⟨toNodeID symKey ++ "->" ++ typeID ++ ".typed", "typed",
          toNodeID symKey, typeID, [("type", d.type)]⟩⟩ :: acc
      | none => acc

/-- `GenerateScopeEnclosesTypeEdges`. -/
def GenerateScopeEnclosesTypeEdges (symbols : SymList) : List GraphEdge :=
  foldrI [] symbols fun (_, d) acc =>
    if d.kind ≠ "struct" && d.kind ≠ "interface" && d.kind ≠ "type" then acc
    else if d.uri = "" || d.packageName = "" then acc
    else
      let filePath := d.uri
      let dir := dirOf (trimPre filePath "file://")
      let scopeQualified := dir ++ "/" ++ d.packageName
      let scopeID := toNodeID (scopeQualified ++ ".package")
      let typeID := toNodeID (posKeyOf filePath d.line d.character)
      ⟨⟨"encloses:" ++ scopeID ++ "->" ++ typeID, "encloses", scopeID,
        typeID, [("kind", "ScopeEnclosesType")]⟩⟩ :: acc

mutual
/-- `collectUses`. -/
def collectUses : SAST → List SAST
  | node@(.mk t _ cs _ _) =>
    (if t = "VarUse" || t = "FieldUse" then [node] else []) ++
      collectUsesL cs

def collectUsesL : SASTList → List SAST
  | .nil => []
  | .cons c rest => collectUses c ++ collectUsesL rest
end

/-- `GenerateOperationUsesVariableEdges`: only the top-level children of each
file root are examined; the operation ID hard-codes character `0`; the use's
`declaredAt` coordinates are decremented by one. -/
def GenerateOperationUsesVariableEdges (simplifiedASTs : SastList)
    (_symbols : SymList) : List GraphEdge :=
  foldrI [] simplifiedASTs fun (_, fileNode) acc =>
    (foldrI [] fileNode.children fun node acc2 =>
      if node.type ≠ "Function" && node.type ≠ "Method" then acc2
      else
        match node.declaredAt with
        | none => acc2
        | some da =>
          let sourceKey := posKeyOf da.uri da.line 0
          let operationID := toNodeID sourceKey
          let uses := collectUses node
          (foldrI [] uses fun use acc3 =>
            match use.declaredAt with
            | none => acc3
            | some uda =>
              let adjustedLine := uda.line - 1
              let adjustedChar := uda.character - 1
              let varPosKey := posKeyOf uda.uri adjustedLine adjustedChar
              let varID := toNodeID varPosKey
              (⟨⟨operationID ++ "_uses_" ++ varID, "uses", operationID,
                varID,
                [("line", toString use.position.line),
                 ("character", toString use.position.character)]⟩⟩ :
                GraphEdge) :: acc3) ++ acc2) ++ acc

/-- The `packageToFiles[name]` list of `GenerateRequiresEdges`: the trimmed
URIs of all file roots declaring package `name`, in map-append order. -/
def pkgFiles (simplifiedASTs : SastList) (name : String) : List String :=
  foldrI [] simplifiedASTs fun (_, fileNode) acc =>
    (foldrI [] fileNode.children fun child acc2 =>
      if child.type = "Package" && child.name = name then
        trimPre fileNode.position.uri "file://" :: acc2
      else acc2) ++ acc

/-- `GenerateRequiresEdges`. -/
def GenerateRequiresEdges (simplifiedASTs : SastList) : List GraphEdge :=
  foldrI [] simplifiedASTs fun (_, fileNode) acc =>
    let sourceURI := trimPre fileNode.position.uri "file://"
    let importedPkgs := foldrI [] fileNode.children fun child l =>
      if child.type = "Import" then trimQuotes child.name :: l else l
    (foldrI [] importedPkgs fun pkg acc2 =>
      (foldrI [] (pkgFiles simplifiedASTs (pathBase pkg))
        fun targetURI acc3 =>
          if targetURI = sourceURI then acc3
          else
            let sourceID := toNodeID sourceURI ++ ".go"
            let targetID := toNodeID targetURI ++ ".go"
            (⟨⟨sourceID ++ "_requires_" ++ targetID, "requires", sourceID,
              targetID, [("imported", pkg)]⟩⟩ : GraphEdge) :: acc3) ++
        acc2) ++ acc

/-- `GenerateProjectIncludesEdges` (its own walk performs no `SkipDir`; the
`walk` parameter is that run's visit list). -/
def GenerateProjectIncludesEdges (sourceRoot : String)
    (walk : List FSEntry) : List GraphEdge :=
  let projectNodeID := "project:" ++ toNodeID sourceRoot
  foldrI [] walk fun e acc =>
    if !e.isDir && !listEndsWith e.path.toList ".go".toList then acc
    else
      let targetID :=
        if e.isDir then replaceDotSlash (toNodeID e.path)
        else replaceDotSlash (toNodeID e.path) ++ ".go"
      ⟨⟨projectNodeID ++ "_includes_" ++ targetID, "includes",
        projectNodeID, targetID, [("type", "includes")]⟩⟩ :: acc

/-- `GenerateAllEdges`: the concatenation of all passes, in source order.
Both filesystem walks are assumed error-free and to visit the same entries
(true whenever no `intermediate_representation` directory lies under the
root). -/
def GenerateAllEdges (simplifiedASTs : SastList) (symbols : SymList)
    (sourceRoot : String) (walk : List FSEntry) : List GraphEdge :=
  GenerateFolderContainsEdges sourceRoot walk ++
  GenerateFileDeclaresScopeEdges simplifiedASTs ++
  GenerateFileDeclaresEdges symbols ++
  GenerateInvokesEdges simplifiedASTs symbols ++
  GenerateReturnsEdges simplifiedASTs symbols ++
  GenerateParameterizesEdges simplifiedASTs symbols ++
  GenerateTypeEncapsulatesVariableEdges simplifiedASTs ++
  GenerateTypeEncapsulatesOperationEdges symbols ++
  GenerateTypedEdges symbols ++
  GenerateScopeEnclosesTypeEdges symbols ++
  GenerateOperationUsesVariableEdges simplifiedASTs symbols ++
  GenerateRequiresEdges simplifiedASTs ++
  GenerateProjectIncludesEdges sourceRoot walk

/-! ### CollectSymbolTable and processField

The `symbols` map is modelled as an association list whose order is the
insertion order of the surviving entries — one possible iteration order of
the Go map. -/

/-- Go map assignment `symbols[k] = d`: overwrite in place or append. -/
def symInsert (m : SymList) (k : String) (d : MDI) : SymList :=
  if m.any (fun kv => kv.1 = k) then
    m.map (fun kv => if kv.1 = k then (k, d) else kv)
  else m ++ [(k, d)]

/-- The back-fill loop of `processField`:
`for k, v := range symbols { if v.Kind == kind && v.Type == "" { v.Type = paramType; break } }`,
patching the first matching entry in this run's iteration order. -/
def backfillType : SymList → String → String → SymList
  | [], _, _ => []
  | (k, v) :: rest, kind, paramType =>
    if v.kind = kind && v.type = "" then
      (k, { v with type := paramType }) :: rest
    else (k, v) :: backfillType rest kind paramType

/-- `processField`: the first `Ident` child is the member name, every later
`Ident` child re-triggers the type back-fill. -/
def processField (field : SAST) (kind : String) (symbols : SymList) :
    SymList :=
  (foldlI (false, symbols) field.children fun st child =>
    let (seenName, syms) := st
    if child.type = "Ident" then
      if !seenName then
        (true, symInsert syms (posKeyOfPos child.position)
          { name := child.name, kind := kind,
            uri := child.position.uri, line := child.position.line,
            character := child.position.character, type := "",
            receiverType := "", packageName := "" })
      else (seenName, backfillType syms kind child.name)
    else (seenName, syms)).2

/-- The receiver-type extraction of the `Function`/`Method` case:
`Receiver → FieldList → Field → Ident`, the last `Ident` winning. -/
def receiverOf (children : List SAST) : String :=
  foldlI "" children fun acc child =>
    if child.type = "Receiver" then
      foldlI acc child.children fun a fl =>
        if fl.type = "FieldList" then
          foldlI a fl.children fun b f =>
            if f.type = "Field" then
              foldlI b f.children fun r i =>
                if i.type = "Ident" then i.name else r
            else b
        else a
    else acc

/-- The type ident of a `Params` field: the last `Ident`/`SelectorExpr`
child's name. -/
def paramsFieldType (field : SAST) : String :=
  foldlI "" field.children fun ft sub =>
    if sub.type = "Ident" || sub.type = "SelectorExpr" then sub.name else ft

/-- The `Params` case: record every `Ident` other than the type ident as a
`param`. -/
def collectParams (node : SAST) (symbols : SymList) : SymList :=
  foldlI symbols node.children fun syms field =>
    if field.type = "Field" then
      let fieldType := paramsFieldType field
      foldlI syms field.children fun syms2 sub =>
        if sub.type = "Ident" then
          if sub.name = fieldType then syms2
          else
            symInsert syms2 (posKeyOfPos sub.position)
              { name := sub.name, kind := "param", type := fieldType,
                uri := sub.position.uri, line := sub.position.line,
                character := sub.position.character,
                receiverType := "", packageName := "" }
        else syms2
    else syms

/-- The per-node emission of `CollectSymbolTable`'s `walk`. -/
def cstHere (packageName : String) (node : SAST) (symbols : SymList) :
    SymList :=
  let posKey := posKeyOfPos node.position
  if node.type = "Function" || node.type = "Method" then
    let kind := if node.type = "Method" then "method" else "func"
    let recvType := if node.type = "Method" then receiverOf node.children
      else ""
    symInsert symbols posKey
      { name := node.name, kind := kind, uri := node.position.uri,
        line := node.position.line, character := node.position.character,
        type := "", receiverType := recvType, packageName := "" }
  else if node.type = "Params" then collectParams node symbols
  else if node.type = "GlobalVar" then
    foldlI symbols node.children fun syms child =>
      if child.type = "Ident" then
        symInsert syms (posKeyOfPos child.position)
          { name := child.name, kind := "var", uri := child.position.uri,
            line := child.position.line,
            character := child.position.character, type := "",
            receiverType := "", packageName := "" }
      else syms
  else if node.type = "Struct" then
    let syms1 :=
      if node.name ≠ "" then
        symInsert symbols posKey
          { name := node.name, kind := "struct", uri := node.position.uri,
            line := node.position.line,
            character := node.position.character, type := "",
            receiverType := "", packageName := packageName }
      else symbols
    foldlI syms1 node.children fun syms field =>
      if field.type = "Field" then processField field "field" syms else syms
  else if node.type = "Interface" then
    let syms1 :=
      if node.name ≠ "" then
        symInsert symbols posKey
          { name := node.name, kind := "interface",
            uri := node.position.uri, line := node.position.line,
            character := node.position.character, type := "",
            receiverType := "", packageName := packageName }
      else symbols
    foldlI syms1 node.children fun syms method =>
      if method.type = "Field" then processField method "method" syms
      else syms
  else if node.type = "Type" then
    if node.name ≠ "" then
      symInsert symbols posKey
        { name := node.name, kind := "type", uri := node.position.uri,
          line := node.position.line, character := node.position.character,
          type := "", receiverType := "", packageName := packageName }
    else symbols
  else symbols

mutual
/-- The depth-first `walk` of `CollectSymbolTable`: a node's own emission,
then its children, then its siblings. -/
def cstWalk (packageName : String) : SAST → SymList → SymList
  | node@(.mk _ _ cs _ _), symbols =>
    cstWalkL packageName cs (cstHere packageName node symbols)

def cstWalkL (packageName : String) : SASTList → SymList → SymList
  | .nil, symbols => symbols
  | .cons c rest, symbols =>
    cstWalkL packageName rest (cstWalk packageName c symbols)
end

/-- `CollectSymbolTable`. -/
def CollectSymbolTable (ast : SAST) : SymList :=
  let packageName :=
    match ast.children.head? with
    | some c => if c.type = "Package" then c.name else ""
    | none => ""
  cstWalk packageName ast []

/-- main.go's merge of per-root symbol tables into one map. -/
def mergeSymbolTables (tables : List SymList) : SymList :=
  foldlI [] tables fun acc t =>
    foldlI acc t fun m (k, d) => symInsert m k d

/-! ### SAST persistence (encoding/json round trip)

The JSON value model, with dedicated list types for arrays and objects.
`encoding/json` marshals `SimplifiedASTNode` with its tags (`omitempty` on
name, children, position, declaredAt) and `ModifiedDefinitionInfo` without
tags (Go field names, always present).  Unmarshalling processes an
object's fields in document order, later duplicates overwriting earlier
ones, unknown keys ignored, absent fields keeping the zero value, and a
type-mismatched value failing.  The builder populates `Position` on every
node, so the decoder requires the `position` field (the encoder always
emits it). -/

mutual
inductive Json where
  | str (s : String)
  | int (n : Int)
  | arr (elems : JsonList)
  | obj (fields : JsonObj)

inductive JsonList where
  | nil
  | cons (head : Json) (tail : JsonList)

inductive JsonObj where
  | nil
  | cons (key : String) (value : Json) (tail : JsonObj)
end

def encodePosition (p : ASTNodePosition) : Json :=
  .obj (.cons "uri" (.str p.uri) (.cons "line" (.int p.line)
    (.cons "character" (.int p.character) .nil)))

def encodeMDI (m : MDI) : Json :=
  .obj (.cons "Name" (.str m.name) (.cons "URI" (.str m.uri)
    (.cons "Line" (.int m.line) (.cons "Character" (.int m.character)
    (.cons "Kind" (.str m.kind) (.cons "Type" (.str m.type)
    (.cons "ReceiverType" (.str m.receiverType)
    (.cons "PackageName" (.str m.packageName) .nil))))))))

mutual
/-- The marshaller used by `SaveSimplifiedAST` / `OutputSimplifiedASTs`:
field order `type`, `name`, `children`, `position`, `declaredAt`, the
`omitempty` fields dropped when empty. -/
def encodeNode : SAST → Json
  | .mk t n cs p d =>
    let declTail : JsonObj :=
      match d with
      | some m => .cons "declaredAt" (encodeMDI m) .nil
      | none => .nil
    let posTail : JsonObj := .cons "position" (encodePosition p) declTail
    let childTail : JsonObj :=
      match cs with
      | .nil => posTail
      | .cons c cs0 =>
        .cons "children" (.arr (encodeNodeList (.cons c cs0))) posTail
    let nameTail : JsonObj :=
      if n = "" then childTail else .cons "name" (.str n) childTail
    .obj (.cons "type" (.str t) nameTail)

def encodeNodeList : SASTList → JsonList
  | .nil => .nil
  | .cons c cs => .cons (encodeNode c) (encodeNodeList cs)
end

/-- Field iteration for `ASTNodePosition`: `uri`, `line`, `character`
assigned over the zero values. -/
def decodePosFields : JsonObj → String → Int → Int →
    Option ASTNodePosition
  | .nil, uri, line, ch => some ⟨uri, line, ch⟩
  | .cons k v rest, uri, line, ch =>
    if k = "uri" then
      match v with
      | .str s => decodePosFields rest s line ch
      | _ => none
    else if k = "line" then
      match v with
      | .int n => decodePosFields rest uri n ch
      | _ => none
    else if k = "character" then
      match v with
      | .int n => decodePosFields rest uri line n
      | _ => none
    else decodePosFields rest uri line ch

def decodePosition : Json → Option ASTNodePosition
  | .obj fields => decodePosFields fields "" 0 0
  | _ => none

/-- Field iteration for `ModifiedDefinitionInfo` (no tags: Go field
names). -/
def decodeMDIFields : JsonObj → MDI → Option MDI
  | .nil, m => some m
  | .cons k v rest, m =>
    if k = "Name" then
      match v with
      | .str s => decodeMDIFields rest { m with name := s }
      | _ => none
    else if k = "URI" then
      match v with
      | .str s => decodeMDIFields rest { m with uri := s }
      | _ => none
    else if k = "Line" then
      match v with
      | .int n => decodeMDIFields rest { m with line := n }
      | _ => none
    else if k = "Character" then
      match v with
      | .int n => decodeMDIFields rest { m with character := n }
      | _ => none
    else if k = "Kind" then
      match v with
      | .str s => decodeMDIFields rest { m with kind := s }
      | _ => none
    else if k = "Type" then
      match v with
      | .str s => decodeMDIFields rest { m with type := s }
      | _ => none
    else if k = "ReceiverType" then
      match v with
      | .str s => decodeMDIFields rest { m with receiverType := s }
      | _ => none
    else if k = "PackageName" then
      match v with
      | .str s => decodeMDIFields rest { m with packageName := s }
      | _ => none
    else decodeMDIFields rest m

def decodeMDI : Json → Option MDI
  | .obj fields => decodeMDIFields fields ⟨"", "", 0, 0, "", "", "", ""⟩
  | _ => none

mutual
/-- The unmarshaller used by `LoadSimplifiedASTs`. -/
def decodeNode : Json → Option SAST
  | .obj fields => decodeNodeFields fields "" "" .nil none none
  | _ => none

/-- One struct-field assignment per matching key, in document order. -/
def decodeNodeFields : JsonObj → String → String → SASTList →
    Option ASTNodePosition → Option MDI → Option SAST
  | .nil, t, n, cs, p?, d? =>
    match p? with
    | some p => some (.mk t n cs p d?)
    | none => none
  | .cons k v rest, t, n, cs, p?, d? =>
    if k = "type" then
      match v with
      | .str s => decodeNodeFields rest s n cs p? d?
      | _ => none
    else if k = "name" then
      match v with
      | .str s => decodeNodeFields rest t s cs p? d?
      | _ => none
    else if k = "children" then
      match v with
      | .arr elems =>
        match decodeNodeList elems with
        | some cs2 => decodeNodeFields rest t n cs2 p? d?
        | none => none
      | _ => none
    else if k = "position" then
      match decodePosition v with
      | some p => decodeNodeFields rest t n cs (some p) d?
      | none => none
    else if k = "declaredAt" then
      match decodeMDI v with
      | some m => decodeNodeFields rest t n cs p? (some m)
      | none => none
    else decodeNodeFields rest t n cs p? d?

def decodeNodeList : JsonList → Option SASTList
  | .nil => some .nil
  | .cons j js =>
    match decodeNode j, decodeNodeList js with
    | some x, some xs => some (.cons x xs)
    | _, _ => none
end

/-! ### newNode / newResolvedNode (resolver.go)

`types.Object` is modelled with the data the two constructors read:
declaring position (1-based toolchain line/column), package, canonical type
string, receiver signature, and the dynamic kind. -/

inductive GoObjKind where
  | constK | varK (isField : Bool) | funcK (recvType : Option String)
  | typeNameK | labelK | pkgNameK | builtinK
deriving DecidableEq, Repr

structure GoObject where
  name : String
  /-- Absolute slash-normalized path of the declaring file
  (`filepath.Abs(objPos.Filename)`). -/
  posFile : String
  /-- 1-based toolchain line of the declaration. -/
  posLine : Int
  /-- 1-based toolchain column of the declaration. -/
  posCol : Int
  /-- `obj.Pkg().Name()`, `""` when `obj.Pkg() == nil`. -/
  pkgName : String
  /-- `obj.Type().String()`. -/
  typeString : String
  kindOf : GoObjKind
deriving DecidableEq, Repr

/-- `strings.ToLower(strings.TrimPrefix(fmt.Sprintf("%T", obj), "*types."))`. -/
def typeTag : GoObjKind → String
  | .constK => "const"
  | .varK _ => "var"
  | .funcK _ => "func"
  | .typeNameK => "typename"
  | .labelK => "label"
  | .pkgNameK => "pkgname"
  | .builtinK => "builtin"

/-- `objectKind` (resolver.go). -/
def objectKind : GoObjKind → String
  | .constK => "const"
  | .varK isField => if isField then "field" else "var"
  | .funcK _ => "func"
  | .typeNameK => "type"
  | .labelK => "label"
  | .pkgNameK => "package"
  | .builtinK => "builtin"

/-- `receiverTypeString` / `receiverType` (identical bodies). -/
def receiverTypeString (o : GoObject) : String :=
  match o.kindOf with
  | .funcK (some r) => r
  | _ => ""

/-- `newNode`: use-site and declared-at coordinates are both decremented to
0-based.  `absPath` is the `filepath.Abs`-resolved slash path of the use
site. -/
def newNode (kind name : String) (absPath : String) (useLine useCol : Int)
    (obj : Option GoObject) : SAST :=
  let declaredAt : Option MDI := obj.map fun o =>
    { name := o.name, uri := "file://" ++ o.posFile, line := o.posLine - 1,
      character := o.posCol - 1, kind := typeTag o.kindOf,
      type := o.typeString, receiverType := receiverTypeString o,
      packageName := o.pkgName }
  SimplifiedASTNode.mk kind name .nil
    ⟨"file://" ++ absPath, useLine - 1, useCol - 1⟩ declaredAt

/-- `newResolvedNode`: calls `newNode` and then overwrites `declaredAt` with
the RAW 1-based toolchain coordinates and `objectKind`. -/
def newResolvedNode (kind name : String) (absPath : String)
    (useLine useCol : Int) (obj : Option GoObject) : SAST :=
  let node := newNode kind name absPath useLine useCol obj
  match obj with
  | none => node
  | some o =>
    match node with
    | SimplifiedASTNode.mk t n cs p _ =>
      SimplifiedASTNode.mk t n cs p (some
        { name := o.name, uri := "file://" ++ o.posFile, line := o.posLine,
          character := o.posCol, kind := objectKind o.kindOf,
          type := o.typeString, receiverType := receiverTypeString o,
          packageName := o.pkgName })

/-! ### ParsePackage (the walk-based variant used by main.go)

One run's `filepath.Walk` visit list; each visited file carries the result
of `os.Open` and of `parser.ParseFile`. -/

structure WalkEntry (α : Type) where
  path : String
  openRes : Except String Unit
  parseRes : Except String α

def isGoFile {α : Type} (e : WalkEntry α) : Bool :=
  listEndsWith e.path.toList ".go".toList

/-- The walk body of `ParsePackage`: a non-`.go` file is skipped; an open or
parse error is returned from the callback, which makes `filepath.Walk` —
and hence `ParsePackage` — return it. -/
def parsePackageGo {α : Type} : List (WalkEntry α) → List (String × α) →
    Except String (List (String × α))
  | [], acc => .ok acc
  | e :: rest, acc =>
    if isGoFile e then
      match e.openRes with
      | .error msg => .error msg
      | .ok _ =>
        match e.parseRes with
        | .error msg => .error msg
        | .ok a => parsePackageGo rest (acc ++ [(e.path, a)])
    else parsePackageGo rest acc

/-- `ParsePackage`. -/
def ParsePackage {α : Type} (entries : List (WalkEntry α)) :
    Except String (List (String × α)) :=
  parsePackageGo entries []

/-! ### The globals pass and body-scan identifier classification
(BuildSimplifiedASTs / buildSimplifiedASTWithGlobals)

A Go parse tree is modelled with exactly the shapes the two passes consume:
`ValueSpec`s (of `var` and `const` group declarations, at top level or
inside function bodies — `ast.Inspect` visits both) and resolved
identifiers inside bodies. -/

structure GoValueSpec where
  /-- Whether the spec belongs to a `const` declaration (a `ValueSpec` all
  the same). -/
  isConst : Bool
  names : List String
deriving DecidableEq, Repr

structure GoObjRef where
  /-- The resolved object is a `*types.Var`. -/
  isVar : Bool
  isField : Bool
  /-- The object is declared at package scope. -/
  packageScope : Bool
deriving DecidableEq, Repr

structure GoIdentUse where
  name : String
  obj : Option GoObjRef
deriving DecidableEq, Repr

structure GoFuncDecl where
  name : String
  /-- `ValueSpec`s inside the body (`var ...` declaration statements). -/
  bodySpecs : List GoValueSpec
  bodyIdents : List GoIdentUse
deriving DecidableEq, Repr

structure GoFile where
  /-- Top-level `GenDecl` `ValueSpec`s (package-level `var` and `const`). -/
  topSpecs : List GoValueSpec
  funcs : List GoFuncDecl
deriving DecidableEq, Repr

/-- The first pass of `BuildSimplifiedASTs`: `ast.Inspect` over every file
collecting the names of EVERY `ValueSpec` — package-level or body-local,
`var` or `const` alike. -/
def collectGlobalsPass (files : List GoFile) : List String :=
  foldrI [] files fun f acc =>
    (foldrI [] f.topSpecs fun s a => s.names ++ a) ++
    (foldrI [] f.funcs fun fn a =>
      (foldrI [] fn.bodySpecs fun s b => s.names ++ b) ++ a) ++ acc

/-- The names of package-level `var` declarations only (what the spec calls
"the set of package-level variable names"). -/
def pkgLevelVarNames (files : List GoFile) : List String :=
  foldrI [] files fun f acc =>
    (foldrI [] f.topSpecs fun s a =>
      if s.isConst then a else s.names ++ a) ++ acc

/-- The `*ast.Ident` case of the body scan (resolver.go): a resolved
identifier is emitted as `GlobalVarUse` when its NAME is in the globals
set, else as `VarUse` when the object is a non-field variable, else not at
all. -/
def classifyIdentUse (globals : List String) (u : GoIdentUse) :
    Option String :=
  match u.obj with
  | none => none
  | some o =>
    if globals.contains u.name then some "GlobalVarUse"
    else if o.isVar && !o.isField then some "VarUse"
    else none

/-! ### SaveSimplifiedAST (guard order)

The root pointer and its `Position` pointer are modelled explicitly because
the guards read exactly them; `filepath.Abs` and `filepath.Rel` are
external and passed as oracles.  An `.ok` result is the write request
(`os.MkdirAll` / `os.Create` / encode) — every `.error` is returned before
any file is created. -/

def SaveSimplifiedAST (ast : Option (Option ASTNodePosition × SAST))
    (projectRoot outputDir : String)
    (absF : String → Except String String)
    (relF : String → String → Except String String) :
    Except String (String × SAST) :=
  match ast with
  | none => .error "invalid AST node"
  | some (none, _) => .error "invalid AST node"
  | some (some pos, a) =>
    let uri := pos.uri
    if !startsWith uri "file://" then .error ("invalid URI: " ++ uri)
    else
      match absF (trimPre uri "file://") with
      | .error e => .error ("failed to resolve absolute path: " ++ e)
      | .ok absPath =>
        match relF projectRoot absPath with
        | .error e => .error ("cannot get relative path: " ++ e)
        | .ok relPath =>
          let ext := extOf relPath
          let jsonFileName :=
            String.mk (relPath.toList.take
              (relPath.toList.length - ext.toList.length)) ++
              ".simplified.json"
          .ok (outputDir ++ "/" ++ jsonFileName, a)

/-! ### Concrete fixtures

`/a/b.go` (the SAST below is what `BuildSimplifiedASTs` produces for it,
1-based source coordinates shifted to 0-based by `newNode`):
```go
package p
func F() {

	x := 1
	_ = x
	G()
	G()
}
func G() {
}
```
`F` is declared at 2:6, the local `x` at 4:2, `G` at 9:6; the body scan
emits a `VarUse` for each use of `x` (its name is in no `ValueSpec`, hence
not in the globals set) and a `Call` for each call of `G`. -/

def uriB : String := "file:///a/b.go"

def fMdi : MDI := ⟨"F", uriB, 1, 5, "func", "func()", "", "p"⟩
def xMdi : MDI := ⟨"x", uriB, 3, 1, "var", "int", "", "p"⟩
def gMdiB : MDI := ⟨"G", uriB, 8, 5, "func", "func()", "", "p"⟩

def bSast : SAST :=
  .mk "File" "b.go"
    (sl [ .mk "Package" "p" (sl []) ⟨uriB, 0, 8⟩ none,
      .mk "Function" "F"
        (sl [ .mk "Params" "" (sl []) ⟨uriB, 1, 6⟩ none,
          .mk "VarUse" "x" (sl []) ⟨uriB, 3, 1⟩ (some xMdi),
          .mk "VarUse" "x" (sl []) ⟨uriB, 4, 5⟩ (some xMdi),
          .mk "Call" "G" (sl []) ⟨uriB, 5, 1⟩ (some gMdiB),
          .mk "Call" "G" (sl []) ⟨uriB, 6, 1⟩ (some gMdiB) ])
        ⟨uriB, 1, 0⟩ (some fMdi),
      .mk "Function" "G"
        (sl [ .mk "Params" "" (sl []) ⟨uriB, 8, 6⟩ none ])
        ⟨uriB, 8, 0⟩ (some gMdiB) ])
    ⟨uriB, 0, 0⟩ none

def bSymbols : SymList := mergeSymbolTables [CollectSymbolTable bSast]
def bWalk : List FSEntry := [⟨"/a", true⟩, ⟨"/a/b.go", false⟩]
def bSasts : SastList := [("/a/b.go", bSast)]

/-- Occurrences of a `(source, target, label)` triple in an edge list. -/
def countTriple (t : String × String × String) (edges : List GraphEdge) :
    Nat :=
  edges.countP fun e =>
    e.data.source = t.1 && e.data.target = t.2.1 && e.data.label = t.2.2

/-! `/a/c.go` (C9 fixture — a package-level variable named like the
primitive type `error`, which is legal Go):
```go
package q
var error = 5
```
-/

def uriC : String := "file:///a/c.go"

def errMdi : MDI := ⟨"error", uriC, 1, 4, "var", "int", "", "q"⟩

def cSast : SAST :=
  .mk "File" "c.go"
    (sl [ .mk "Package" "q" (sl []) ⟨uriC, 0, 8⟩ none,
      .mk "GlobalVar" ""
        (sl [ .mk "Ident" "error" (sl []) ⟨uriC, 1, 4⟩ (some errMdi) ])
        ⟨uriC, 1, 0⟩ none ])
    ⟨uriC, 0, 0⟩ none

def cSymbols : SymList := mergeSymbolTables [CollectSymbolTable cSast]

/-- The symbol-table entry the collector records for `var error = 5`. -/
def errSymEntry : MDI := ⟨"error", uriC, 1, 4, "var", "", "", ""⟩

/-! A two-entry symbol table holding a struct `V` and a method `M` whose
receiver type is `V` (the shape `TypeEncapsulatesOperation` consumes). -/

def vSymbols : SymList :=
  [("file:///a/v.go:1:0",
      ⟨"V", "file:///a/v.go", 1, 0, "struct", "", "", "p"⟩),
   ("file:///a/v.go:3:0",
      ⟨"M", "file:///a/v.go", 3, 0, "method", "", "V", "p"⟩)]

def vWalk : List FSEntry := [⟨"/a", true⟩, ⟨"/a/v.go", false⟩]
def cWalk : List FSEntry := [⟨"/a", true⟩, ⟨"/a/c.go", false⟩]
def cSasts : SastList := [("/a/c.go", cSast)]

/-! Two same-named functions `g` in two files of different packages (C1
fixture), and a caller `H` of `g`.  The two symbol lists below are the two
iteration orders of the same symbol-table map. -/

def uriP1 : String := "file:///a/p1/p1.go"
def uriP2 : String := "file:///a/p2/p2.go"
def uriH : String := "file:///a/h.go"

def g1Mdi : MDI := ⟨"g", uriP1, 1, 5, "func", "func()", "", "p1"⟩
def g2Mdi : MDI := ⟨"g", uriP2, 1, 5, "func", "func()", "", "p2"⟩
def hMdi : MDI := ⟨"H", uriH, 1, 5, "func", "func()", "", "main"⟩

def g1Entry : String × MDI :=
  ("file:///a/p1/p1.go:1:0", ⟨"g", uriP1, 1, 0, "func", "", "", ""⟩)
def g2Entry : String × MDI :=
  ("file:///a/p2/p2.go:1:0", ⟨"g", uriP2, 1, 0, "func", "", "", ""⟩)
def hEntry : String × MDI :=
  ("file:///a/h.go:1:0", ⟨"H", uriH, 1, 0, "func", "", "", ""⟩)

def c1Syms1 : SymList := [hEntry, g1Entry, g2Entry]
def c1Syms2 : SymList := [hEntry, g2Entry, g1Entry]

def hSast : SAST :=
  .mk "File" "h.go"
    (sl [ .mk "Package" "main" (sl []) ⟨uriH, 0, 8⟩ none,
      .mk "Function" "H"
        (sl [ .mk "Params" "" (sl []) ⟨uriH, 1, 6⟩ none,
          .mk "Call" "g" (sl []) ⟨uriH, 2, 1⟩ (some g1Mdi) ])
        ⟨uriH, 1, 0⟩ (some hMdi) ])
    ⟨uriH, 0, 0⟩ none

def hSasts : SastList := [("/a/h.go", hSast)]

/-! C7 fixture:
```go
package p
const c = 1
func F() {
	var x int
	_ = x
}
```
`c` and the body-local `x` are both `ValueSpec` names, so the globals pass
collects both; the uses of `x` resolve to a local non-field variable. -/

def c7File : GoFile :=
  { topSpecs := [⟨true, ["c"]⟩],
    funcs := [{ name := "F", bodySpecs := [⟨false, ["x"]⟩],
                bodyIdents := [⟨"x", some ⟨true, false, false⟩⟩] }] }

/-! C4 fixture: three files, the middle one failing to parse. -/

def c4Entries : List (WalkEntry String) :=
  [ ⟨"/a/a.go", .ok (), .ok "fileA"⟩,
    ⟨"/a/b.go", .ok (), .error "b.go:2:1: expected declaration, found f"⟩,
    ⟨"/a/c.go", .ok (), .ok "fileC"⟩ ]

/-- The value of a node property. -/
def propOf (nd : GraphNode) (k : String) : Option String :=
  (nd.data.properties.find? (fun p => p.1 = k)).map (fun p => p.2)

/-- `Except` success test. -/
def exceptOk {ε α : Type} : Except ε α → Bool
  | .ok _ => true
  | .error _ => false

/-! ## Theorems -/

/-- C6.  Coordinate basing of `declaredAt`: for every SAST node built with a
resolved object, `newNode` stores the toolchain line and column decremented
by one (0-based), while `newResolvedNode` stores the raw 1-based toolchain
line and column unmodified. -/
theorem c6_declaredAt_coordinates (kind name absPath : String)
    (useLine useCol : Int) (o : GoObject) :
    ((newNode kind name absPath useLine useCol (some o)).declaredAt).map
        (fun m => (m.line, m.character)) =
      some (o.posLine - 1, o.posCol - 1) ∧
    ((newResolvedNode kind name absPath useLine useCol (some o)).declaredAt).map
        (fun m => (m.line, m.character)) =
      some (o.posLine, o.posCol) := by
  constructor <;> rfl

/-- C10.  `SaveSimplifiedAST` returns a non-nil error — before any output
file is created (an `.ok` result is the write request) — whenever the root
is nil, the root's `Position` is nil, or the position URI does not start
with `file://`; a write happens only when all three conditions hold. -/
theorem c10_save_guards (projectRoot outputDir : String)
    (absF : String → Except String String)
    (relF : String → String → Except String String) :
    (SaveSimplifiedAST none projectRoot outputDir absF relF =
      .error "invalid AST node") ∧
    (∀ a : SAST, SaveSimplifiedAST (some (none, a)) projectRoot outputDir
      absF relF = .error "invalid AST node") ∧
    (∀ (pos : ASTNodePosition) (a : SAST),
      startsWith pos.uri "file://" = false →
      SaveSimplifiedAST (some (some pos, a)) projectRoot outputDir absF
        relF = .error ("invalid URI: " ++ pos.uri)) ∧
    (∀ (ast : Option (Option ASTNodePosition × SAST)) (out : String × SAST),
      SaveSimplifiedAST ast projectRoot outputDir absF relF = .ok out →
      ∃ pos a, ast = some (some pos, a) ∧
        startsWith pos.uri "file://" = true) := by
  refine ⟨rfl, fun a => rfl, fun pos a huri => ?_, fun ast out hok => ?_⟩
  · simp [SaveSimplifiedAST, huri]
  · match ast with
    | none => simp [SaveSimplifiedAST] at hok
    | some (none, a) => simp [SaveSimplifiedAST] at hok
    | some (some pos, a) =>
      refine ⟨pos, a, rfl, ?_⟩
      by_contra hns
      rw [Bool.not_eq_true] at hns
      simp [SaveSimplifiedAST, hns] at hok

/-- Witness for C10 at a concrete malformed URI. -/
theorem c10_save_guards_witness :
    SaveSimplifiedAST
      (some (some ⟨"bad", 0, 0⟩,
        SimplifiedASTNode.mk "File" "f" .nil ⟨"bad", 0, 0⟩ none))
      "/r" "/o" (fun s => .ok s) (fun _ s => .ok s) =
      .error "invalid URI: bad" :=
  (c10_save_guards "/r" "/o" (fun s => .ok s) (fun _ s => .ok s)).2.2.1
    ⟨"bad", 0, 0⟩
    (SimplifiedASTNode.mk "File" "f" .nil ⟨"bad", 0, 0⟩ none) (by decide)

theorem parsePackageGo_ok {α : Type} :
    ∀ (entries : List (WalkEntry α)) (acc : List (String × α)),
    (∀ e ∈ entries, isGoFile e = true →
      (exceptOk e.openRes && exceptOk e.parseRes) = true) →
    ∃ l, parsePackageGo entries acc = .ok l ∧
      l.map Prod.fst =
        acc.map Prod.fst ++
          (entries.filter (fun e => isGoFile e)).map (fun e => e.path) := by
  intro entries
  induction entries with
  | nil => intro acc _; exact ⟨acc, rfl, by simp [parsePackageGo]⟩
  | cons e rest ih =>
    intro acc hgood
    by_cases hgo : isGoFile e = true
    · have hok := hgood e (by simp) hgo
      match hopen : e.openRes, hparse : e.parseRes with
      | .ok _, .ok a =>
        obtain ⟨l, hl, hmap⟩ := ih (acc ++ [(e.path, a)])
          (fun x hx h => hgood x (by simp [hx]) h)
        refine ⟨l, ?_, ?_⟩
        · simp only [parsePackageGo, hgo, if_true, hopen, hparse]
          exact hl
        · simp only [hmap, List.filter_cons, hgo]
          simp
      | .ok _, .error msg =>
        rw [hopen, hparse] at hok; simp [exceptOk] at hok
      | .error msg, _ =>
        rw [hopen] at hok; simp [exceptOk] at hok
    · obtain ⟨l, hl, hmap⟩ := ih acc (fun x hx h => hgood x (by simp [hx]) h)
      refine ⟨l, ?_, ?_⟩
      · simp only [parsePackageGo, hgo, if_false]
        exact hl
      · simp only [hmap, List.filter_cons]
        simp [hgo]

theorem parsePackageGo_error {α : Type} :
    ∀ (entries : List (WalkEntry α)) (acc : List (String × α)),
    (∃ e ∈ entries, isGoFile e = true ∧
      (exceptOk e.openRes && exceptOk e.parseRes) = false) →
    ∃ msg, parsePackageGo entries acc = .error msg := by
  intro entries
  induction entries with
  | nil => intro acc h; simp at h
  | cons e rest ih =>
    intro acc h
    obtain ⟨x, hx, hgo, hbad⟩ := h
    rcases List.mem_cons.mp hx with hhead | htail
    · subst hhead
      match hopen : x.openRes, hparse : x.parseRes with
      | .ok _, .ok a => rw [hopen, hparse] at hbad; simp [exceptOk] at hbad
      | .ok u, .error msg =>
        refine ⟨msg, ?_⟩
        cases u
        simp [parsePackageGo, hgo, hopen, hparse]
      | .error msg, _ =>
        refine ⟨msg, ?_⟩
        simp [parsePackageGo, hgo, hopen]
    · by_cases hgoe : isGoFile e = true
      · match hopen : e.openRes, hparse : e.parseRes with
        | .ok u, .ok a =>
          obtain ⟨msg, hmsg⟩ := ih (acc ++ [(e.path, a)]) ⟨x, htail, hgo, hbad⟩
          exact ⟨msg, by cases u; simp [parsePackageGo, hgoe, hopen, hparse,
            hmsg]⟩
        | .ok u, .error msg =>
          exact ⟨msg, by cases u; simp [parsePackageGo, hgoe, hopen, hparse]⟩
        | .error msg, _ =>
          exact ⟨msg, by simp [parsePackageGo, hgoe, hopen]⟩
      · obtain ⟨msg, hmsg⟩ := ih acc ⟨x, htail, hgo, hbad⟩
        exact ⟨msg, by simp [parsePackageGo, hgoe, hmsg]⟩

/-- C4 counterexample.  With three `.go` files of which the middle one
fails to parse, `ParsePackage` returns the parse error — it does not
continue and does not return parse trees for the files that do parse. -/
theorem c4_counterexample :
    ParsePackage c4Entries =
      .error "b.go:2:1: expected declaration, found f" ∧
    ∀ l : List (String × String), ParsePackage c4Entries ≠ .ok l := by
  constructor
  · rfl
  · intro l h
    rw [show ParsePackage c4Entries =
      .error "b.go:2:1: expected declaration, found f" from rfl] at h
    exact Except.noConfusion h

/-- C4 amended.  `ParsePackage` is NOT parse-failure tolerant: the walk
callback returns the first open or parse error of a `.go` file, which
aborts `filepath.Walk`, so `ParsePackage` returns that error and no parse
trees at all; only when every `.go` file opens and parses does it return a
map with one parse tree per `.go` file. -/
theorem c4_amended {α : Type} (entries : List (WalkEntry α)) :
    ((∀ e ∈ entries, isGoFile e = true →
        (exceptOk e.openRes && exceptOk e.parseRes) = true) →
      ∃ l, ParsePackage entries = .ok l ∧
        l.map Prod.fst =
          (entries.filter (fun e => isGoFile e)).map (fun e => e.path)) ∧
    ((∃ e ∈ entries, isGoFile e = true ∧
        (exceptOk e.openRes && exceptOk e.parseRes) = false) →
      ∃ msg, ParsePackage entries = .error msg) := by
  constructor
  · intro hgood
    obtain ⟨l, hl, hmap⟩ := parsePackageGo_ok entries [] hgood
    exact ⟨l, hl, by simpa using hmap⟩
  · intro hbad
    exact parsePackageGo_error entries [] hbad

/-- Witness for C4 amended at the concrete fixture. -/
theorem c4_amended_witness :
    ∃ msg, ParsePackage c4Entries = .error msg :=
  (c4_amended c4Entries).2
    ⟨⟨"/a/b.go", .ok (), .error "b.go:2:1: expected declaration, found f"⟩,
      by simp [c4Entries], rfl, rfl⟩

theorem mem_spec_foldr {β : Type} (g : β → List String) :
    ∀ (l : List β) (n : String),
    (n ∈ l.foldr (fun s a => g s ++ a) []) ↔ ∃ s ∈ l, n ∈ g s := by
  intro l n
  induction l with
  | nil => simp
  | cons s rest ih => simp [ih]

theorem mem_collectGlobalsPass (files : List GoFile) (n : String) :
    n ∈ collectGlobalsPass files ↔
      ∃ f ∈ files, (∃ s ∈ f.topSpecs, n ∈ s.names) ∨
        ∃ fn ∈ f.funcs, ∃ s ∈ fn.bodySpecs, n ∈ s.names := by
  induction files with
  | nil => simp [collectGlobalsPass, foldrI]
  | cons f rest ih =>
    simp only [collectGlobalsPass, foldrI, List.foldr_cons, List.mem_append]
    rw [show (List.foldr (fun f acc =>
        (f.topSpecs.foldr (fun s a => s.names ++ a) []) ++
        (f.funcs.foldr (fun fn a =>
          (fn.bodySpecs.foldr (fun s b => s.names ++ b) []) ++ a) []) ++ acc)
        [] rest) = collectGlobalsPass rest from rfl]
    rw [ih, mem_spec_foldr GoValueSpec.names,
      mem_spec_foldr (fun fn : GoFuncDecl =>
        fn.bodySpecs.foldr (fun s b => s.names ++ b) [])]
    constructor
    · rintro ((h | h) | h)
      · exact ⟨f, by simp, Or.inl h⟩
      · obtain ⟨fn, hfn, hmem⟩ := h
        exact ⟨f, by simp,
          Or.inr ⟨fn, hfn, (mem_spec_foldr GoValueSpec.names _ _).mp hmem⟩⟩
      · obtain ⟨f0, hf0, hc⟩ := h
        exact ⟨f0, by simp [hf0], hc⟩
    · rintro ⟨f0, hf0, hc⟩
      rcases List.mem_cons.mp hf0 with rfl | hf0
      · rcases hc with h | ⟨fn, hfn, s, hs, hns⟩
        · exact Or.inl (Or.inl h)
        · exact Or.inl (Or.inr ⟨fn, hfn,
            (mem_spec_foldr GoValueSpec.names _ _).mpr ⟨s, hs, hns⟩⟩)
      · exact Or.inr ⟨f0, hf0, hc⟩

/-- C7 counterexample.  In a file whose function body declares `var x int`
(a body-local `ValueSpec`), the globals pass collects `x`, so the use of
the local, function-scoped variable `x` is classified `GlobalVarUse` — the
claim predicts `VarUse` for a variable not declared at package scope — and
the collected set (here also holding the constant `c`) is not the set of
package-level variable names (which is empty). -/
theorem c7_counterexample :
    classifyIdentUse (collectGlobalsPass [c7File])
        ⟨"x", some ⟨true, false, false⟩⟩ = some "GlobalVarUse" ∧
    (⟨true, false, false⟩ : GoObjRef).packageScope = false ∧
    "x" ∈ collectGlobalsPass [c7File] ∧
    "x" ∉ pkgLevelVarNames [c7File] ∧
    "c" ∈ collectGlobalsPass [c7File] ∧
    "c" ∉ pkgLevelVarNames [c7File] := by
  refine ⟨rfl, rfl, ?_, ?_, ?_, ?_⟩ <;> decide

/-- C7 amended.  The body scan classifies a resolved identifier as
`GlobalVarUse` exactly when its NAME is in the globals set — not when the
resolved variable is declared at package scope — and as `VarUse` when the
name is not in the set and the object is a non-field variable; the globals
set contains exactly the names of every `ValueSpec` in every parse tree,
including body-local `var` declarations and `const` declarations, not just
package-level variables. -/
theorem c7_amended (globals : List String) (u : GoIdentUse) (o : GoObjRef)
    (hobj : u.obj = some o) :
    ((classifyIdentUse globals u = some "GlobalVarUse") ↔ u.name ∈ globals) ∧
    (u.name ∉ globals →
      ((classifyIdentUse globals u = some "VarUse") ↔
        (o.isVar = true ∧ o.isField = false))) ∧
    (∀ (files : List GoFile) (n : String),
      n ∈ collectGlobalsPass files ↔
        ∃ f ∈ files, (∃ s ∈ f.topSpecs, n ∈ s.names) ∨
          ∃ fn ∈ f.funcs, ∃ s ∈ fn.bodySpecs, n ∈ s.names) := by
  refine ⟨?_, ?_, mem_collectGlobalsPass⟩
  · constructor
    · intro h
      by_contra hmem
      have hc : globals.contains u.name = false := by
        rw [← Bool.not_eq_true, List.elem_iff]
        exact fun hx => hmem hx
      simp only [classifyIdentUse, hobj, hc, Bool.false_eq_true,
        if_false] at h
      by_cases hv : (o.isVar && !o.isField) = true
      · rw [if_pos hv] at h
        exact absurd (Option.some.inj h) (by decide)
      · rw [if_neg hv] at h
        exact Option.noConfusion h
    · intro hmem
      have hc : globals.contains u.name = true :=
        List.elem_iff.mpr hmem
      simp only [classifyIdentUse, hobj, hc, if_true]
  · intro hmem
    have hc : globals.contains u.name = false := by
      rw [← Bool.not_eq_true, List.elem_iff]
      exact fun hx => hmem hx
    simp only [classifyIdentUse, hobj, hc, Bool.false_eq_true, if_false]
    by_cases hv : (o.isVar && !o.isField) = true
    · simp only [hv, if_true]
      simp only [Bool.and_eq_true, Bool.not_eq_eq_eq_not, Bool.not_true] at hv
      simp [hv]
    · simp only [hv, if_false]
      simp only [Bool.and_eq_true, Bool.not_eq_eq_eq_not, Bool.not_true] at hv
      constructor
      · intro h; exact Option.noConfusion h
      · intro ⟨h1, h2⟩; exact absurd ⟨h1, h2⟩ hv

/-- Witness for C7 amended at the concrete fixture. -/
theorem c7_amended_witness :
    classifyIdentUse (collectGlobalsPass [c7File])
        ⟨"x", some ⟨true, false, false⟩⟩ = some "GlobalVarUse" :=
  (c7_amended (collectGlobalsPass [c7File]) ⟨"x", some ⟨true, false, false⟩⟩
    ⟨true, false, false⟩ rfl).1.mpr (by decide)

theorem genDeclNodes_mem :
    ∀ (symbols : SymList) (seen : List String) (nd : GraphNode),
    nd ∈ (genDeclNodes symbols seen).1 →
    ∃ kd ∈ symbols, nd = mkDeclNode kd.2 ∧ skipLocal kd.2 = false ∧
      skipPrimitive kd.2 = false := by
  intro symbols
  induction symbols with
  | nil => intro seen nd h; simp [genDeclNodes] at h
  | cons kd rest ih =>
    intro seen nd h
    obtain ⟨k, d⟩ := kd
    by_cases h1 : skipLocal d = true
    · rw [show genDeclNodes ((k, d) :: rest) seen = genDeclNodes rest seen
        from by simp [genDeclNodes, h1]] at h
      obtain ⟨kd0, hkd0, hrest⟩ := ih seen nd h
      exact ⟨kd0, List.mem_cons_of_mem _ hkd0, hrest⟩
    · rw [Bool.not_eq_true] at h1
      by_cases h2 : toNodeID (posKeyOfDef d) ∈ seen
      · rw [show genDeclNodes ((k, d) :: rest) seen = genDeclNodes rest seen
          from by simp [genDeclNodes, h1, h2]] at h
        obtain ⟨kd0, hkd0, hrest⟩ := ih seen nd h
        exact ⟨kd0, List.mem_cons_of_mem _ hkd0, hrest⟩
      · by_cases h3 : skipPrimitive d = true
        · rw [show genDeclNodes ((k, d) :: rest) seen = genDeclNodes rest
            seen from by simp [genDeclNodes, h1, h2, h3]] at h
          obtain ⟨kd0, hkd0, hrest⟩ := ih seen nd h
          exact ⟨kd0, List.mem_cons_of_mem _ hkd0, hrest⟩
        · rw [Bool.not_eq_true] at h3
          rcases hg : genDeclNodes rest (toNodeID (posKeyOfDef d) :: seen)
            with ⟨ns, seen2⟩
          rw [show genDeclNodes ((k, d) :: rest) seen =
            (mkDeclNode d :: ns, seen2) from by
              simp [genDeclNodes, h1, h2, h3, hg]] at h
          rcases List.mem_cons.mp h with rfl | hns
          · exact ⟨(k, d), by simp, rfl, h1, h3⟩
          · obtain ⟨kd0, hkd0, hrest⟩ := ih _ nd (by rw [hg]; exact hns)
            exact ⟨kd0, List.mem_cons_of_mem _ hkd0, hrest⟩

/-- C5.  Kind-to-label mapping: `field`, `var`, `param` map to
`[Variable]`; `func`, `method` to `[Operation, Type]`; `type`, `struct`,
`interface` to `[Type]`; any other kind to the single title-cased kind
string; and every declaration node emitted by `genDeclNodes` (the
symbol-table loop of `GenerateGraphNodes`) carries exactly
`KindToLabel` of its entry's kind as its label list. -/
theorem c5_kind_to_label :
    (KindToLabel "field" = ["Variable"] ∧ KindToLabel "var" = ["Variable"] ∧
      KindToLabel "param" = ["Variable"]) ∧
    (KindToLabel "func" = ["Operation", "Type"] ∧
      KindToLabel "method" = ["Operation", "Type"]) ∧
    (KindToLabel "type" = ["Type"] ∧ KindToLabel "struct" = ["Type"] ∧
      KindToLabel "interface" = ["Type"]) ∧
    (∀ k : String, k ∉ (["field", "var", "param", "func", "method", "type",
        "struct", "interface"] : List String) →
      KindToLabel k = [titleCase k]) ∧
    (∀ (symbols : SymList) (seen : List String) (nd : GraphNode),
      nd ∈ (genDeclNodes symbols seen).1 →
      ∃ kd ∈ symbols, nd.data.labels = KindToLabel kd.2.kind ∧
        propOf nd "kind" = some kd.2.kind) := by
  refine ⟨⟨rfl, rfl, rfl⟩, ⟨rfl, rfl⟩, ⟨rfl, rfl, rfl⟩, ?_, ?_⟩
  · intro k hk
    simp only [List.mem_cons, List.not_mem_nil, or_false, not_or] at hk
    obtain ⟨n1, n2, n3, n4, n5, n6, n7, n8⟩ := hk
    simp [KindToLabel, n1, n2, n3, n4, n5, n6, n7, n8]
  · intro symbols seen nd h
    obtain ⟨kd0, hkd0, hnd, _, _⟩ := genDeclNodes_mem symbols seen nd h
    exact ⟨kd0, hkd0, by rw [hnd]; rfl, by rw [hnd]; rfl⟩

/-- Witness for C5 at the concrete `/a/c.go` symbol table: the single
`var` entry's node carries `KindToLabel "var" = ["Variable"]`. -/
theorem c5_kind_to_label_witness :
    ∃ kd ∈ cSymbols,
      (mkDeclNode errSymEntry).data.labels = KindToLabel kd.2.kind ∧
      propOf (mkDeclNode errSymEntry) "kind" = some kd.2.kind :=
  c5_kind_to_label.2.2.2.2 cSymbols [] (mkDeclNode errSymEntry) (by decide)

/-- C9 counterexample.  The symbol table of `/a/c.go` holds a
package-level variable named `error`; `GenerateGraphNodes` emits a
declaration node for it — with the primitive name `error` as its
`simpleName` — because the primitive-name skip applies only to `type`,
`struct` and `interface` kinds. -/
theorem c9_counterexample :
    ∃ nd ∈ GenerateGraphNodes "/a" cWalk cSymbols cSasts,
      propOf nd "simpleName" = some "error" ∧
      isPrimitiveType "error" = true ∧
      nd.data.labels = ["Variable"] := by
  decide

/-- C9 amended.  `GenerateGraphNodes` skips a primitive-named symbol-table
entry only when its kind is `type`, `struct` or `interface`; entries of any
other kind (`var`, `param`, `field`, `func`, `method`, ...) are emitted
even when their name is a primitive type name, so a declaration node can
carry a primitive `simpleName`. -/
theorem c9_amended (symbols : SymList) (seen : List String)
    (nd : GraphNode) (h : nd ∈ (genDeclNodes symbols seen).1) :
    ∃ kd ∈ symbols,
      propOf nd "simpleName" = some kd.2.name ∧
      propOf nd "kind" = some kd.2.kind ∧
      ¬(isPrimitiveType kd.2.name = true ∧
        (kd.2.kind = "type" ∨ kd.2.kind = "struct" ∨
          kd.2.kind = "interface")) := by
  obtain ⟨kd0, hkd0, hnd, _, hprim⟩ := genDeclNodes_mem symbols seen nd h
  refine ⟨kd0, hkd0, by rw [hnd]; rfl, by rw [hnd]; rfl, ?_⟩
  rintro ⟨hp, hk⟩
  rw [skipPrimitive] at hprim
  rcases hk with hk | hk | hk <;> simp [hp, hk] at hprim

/-- Witness for C9 amended at the concrete `/a/c.go` symbol table. -/
theorem c9_amended_witness :
    ∃ kd ∈ cSymbols,
      propOf (mkDeclNode errSymEntry) "simpleName" = some kd.2.name ∧
      propOf (mkDeclNode errSymEntry) "kind" = some kd.2.kind ∧
      ¬(isPrimitiveType kd.2.name = true ∧
        (kd.2.kind = "type" ∨ kd.2.kind = "struct" ∨
          kd.2.kind = "interface")) :=
  c9_amended cSymbols [] (mkDeclNode errSymEntry) (by decide)

theorem decodePosition_encode (p : ASTNodePosition) :
    decodePosition (encodePosition p) = some p := rfl

theorem decodeMDI_encode (m : MDI) : decodeMDI (encodeMDI m) = some m := rfl

mutual
theorem decode_encode : ∀ x : SAST, decodeNode (encodeNode x) = some x
  | .mk t n cs p d => by
    have hcs := decode_encode_list cs
    rcases cs with _ | ⟨c0, cs0⟩ <;> rcases d with _ | m <;>
        by_cases hn : n = "" <;>
      (try simp only [encodeNodeList] at hcs) <;>
      simp [encodeNode, encodeNodeList, decodeNode, decodeNodeFields, hn,
        hcs, decodePosition_encode, decodeMDI_encode]

theorem decode_encode_list : ∀ l : SASTList,
    decodeNodeList (encodeNodeList l) = some l
  | .nil => by simp [encodeNodeList, decodeNodeList]
  | .cons c cs => by
    have h1 := decode_encode c
    have h2 := decode_encode_list cs
    simp [encodeNodeList, decodeNodeList, h1, h2]
end

/-- C3.  Round-trip persistence: decoding the JSON produced by the encoder
used by `SaveSimplifiedAST` with the decoder used by `LoadSimplifiedASTs`
yields a structurally equal tree — same type, name, position, declaredAt,
and children recursively — for every `SimplifiedASTNode` tree. -/
theorem c3_roundtrip (x : SAST) : decodeNode (encodeNode x) = some x :=
  decode_encode x

theorem find?_eq_of_perm_of_unique {α : Type} (p : α → Bool)
    {l1 l2 : List α} (hp : l1.Perm l2) (hu : l1.countP p ≤ 1) :
    l1.find? p = l2.find? p := by
  cases h1 : l1.find? p with
  | none =>
    rw [List.find?_eq_none] at h1
    cases h2 : l2.find? p with
    | none => rfl
    | some b =>
      have hb := List.find?_some h2
      have hbm := List.mem_of_find?_eq_some h2
      exact absurd hb (by simpa using h1 b (hp.symm.subset hbm))
  | some a =>
    have ha := List.find?_some h1
    have ham := List.mem_of_find?_eq_some h1
    cases h2 : l2.find? p with
    | none =>
      rw [List.find?_eq_none] at h2
      exact absurd ha (by simpa using h2 a (hp.subset ham))
    | some b =>
      have hb := List.find?_some h2
      have hbm := List.mem_of_find?_eq_some h2
      by_contra hne
      have hne2 : a ≠ b := fun h => hne (by rw [h])
      have hcount : l2.countP p ≤ 1 := by
        rw [← hp.countP_eq p]; exact hu
      have haf : a ∈ l2.filter p := List.mem_filter.mpr ⟨hp.subset ham, ha⟩
      have hbf : b ∈ l2.filter p := List.mem_filter.mpr ⟨hbm, hb⟩
      have h2le : 2 ≤ (l2.filter p).length := by
        rcases hfl : l2.filter p with _ | ⟨x, _ | ⟨y, fl0⟩⟩
        · rw [hfl] at haf; simp at haf
        · rw [hfl] at haf hbf
          simp at haf hbf
          exact absurd (haf.trans hbf.symm) hne2
        · simp [hfl]
      rw [List.countP_eq_length_filter] at hcount
      omega

theorem findCallee_congr (s1 s2 : SymList) (hp : s1.Perm s2)
    (hu : ∀ n : String, s1.countP (fun kd => kd.2.name = n &&
      (kd.2.kind = "func" || kd.2.kind = "method")) ≤ 1) :
    ∀ n, findCallee s1 n = findCallee s2 n := fun n =>
  find?_eq_of_perm_of_unique _ hp (hu n)

mutual
theorem invokesWalk_congr (s1 s2 : SymList)
    (hfc : ∀ n, findCallee s1 n = findCallee s2 n) :
    ∀ (node : SAST) (cur : String),
      invokesWalk s1 node cur = invokesWalk s2 node cur
  | .mk t n cs p d, cur => by
    have hl := invokesWalkL_congr s1 s2 hfc cs
    simp only [invokesWalk, hl, hfc]

theorem invokesWalkL_congr (s1 s2 : SymList)
    (hfc : ∀ n, findCallee s1 n = findCallee s2 n) :
    ∀ (l : SASTList) (cur : String),
      invokesWalkL s1 l cur = invokesWalkL s2 l cur
  | .nil, _ => rfl
  | .cons c rest, cur => by
    have h1 := invokesWalk_congr s1 s2 hfc c
    have h2 := invokesWalkL_congr s1 s2 hfc rest
    simp only [invokesWalkL, h1, h2]
end

/-- C1 counterexample.  The two symbol lists are permutations of each
other — the same symbol-table map under two iteration orders, holding two
same-named functions `g` — yet `GenerateInvokesEdges` resolves the call of
`g` in `H` to a different callee in each: the emitted edge set differs
between the two runs. -/
theorem c1_counterexample :
    c1Syms1.Perm c1Syms2 ∧
    GenerateInvokesEdges hSasts c1Syms1 ≠
      GenerateInvokesEdges hSasts c1Syms2 := by
  constructor
  · decide
  · decide

/-- C1 amended.  Determinism holds only modulo symbol-table iteration
order: over two runs whose iteration orders are permutations of the same
entries, `GenerateInvokesEdges` emits identical edges PROVIDED at most one
`func`/`method` entry bears any given name; with same-named functions
across packages the first-match scan is order-dependent (see the
counterexample), as is `processField`'s type back-fill scan. -/
theorem c1_amended (sasts : SastList) (s1 s2 : SymList)
    (hperm : s1.Perm s2)
    (huniq : ∀ n : String, s1.countP (fun kd => kd.2.name = n &&
      (kd.2.kind = "func" || kd.2.kind = "method")) ≤ 1) :
    GenerateInvokesEdges sasts s1 = GenerateInvokesEdges sasts s2 := by
  have hfc := findCallee_congr s1 s2 hperm huniq
  unfold GenerateInvokesEdges
  induction sasts with
  | nil => rfl
  | cons kv rest ih => simp [invokesWalk_congr s1 s2 hfc, ih]

/-- Witness for C1 amended: with a single function named `g` in the table,
the two iteration orders produce the same invokes edges. -/
theorem c1_amended_witness :
    GenerateInvokesEdges hSasts [hEntry, g1Entry] =
      GenerateInvokesEdges hSasts [g1Entry, hEntry] :=
  c1_amended hSasts [hEntry, g1Entry] [g1Entry, hEntry] (by decide)
    (fun n => by
      by_cases h1 : "H" = n <;> by_cases h2 : "g" = n
      · exact absurd (h1.trans h2.symm) (by decide)
      all_goals
        simp [hEntry, g1Entry, List.countP_cons, h1, h2])

theorem mem_mapInsert {m : List (String × String)} {k v : String}
    {pr : String × String} (h : pr ∈ mapInsert m k v) :
    pr = (k, v) ∨ pr ∈ m := by
  rcases List.mem_cons.mp h with h1 | h1
  · exact Or.inl h1
  · exact Or.inr (List.mem_filter.mp h1).1

theorem encOpTypeMapGo_mem :
    ∀ (l : SymList) (m0 : List (String × String)) (pr : String × String),
    pr ∈ encOpTypeMapGo l m0 →
    pr ∈ m0 ∨ ∃ kd ∈ l, (kd.2.kind = "struct" ∨ kd.2.kind = "interface") ∧
      pr = (kd.2.name, kd.1) := by
  intro l
  induction l with
  | nil => intro m0 pr h; exact Or.inl h
  | cons kd rest ih =>
    intro m0 pr h
    obtain ⟨id, sym⟩ := kd
    rw [encOpTypeMapGo] at h
    by_cases hs : (sym.kind = "struct" || sym.kind = "interface") = true
    · rw [if_pos hs] at h
      rcases ih _ pr h with h1 | ⟨kd0, hkd0, hk, hpr⟩
      · rcases mem_mapInsert h1 with h2 | h2
        · exact Or.inr ⟨(id, sym), by simp,
            by simpa using hs, by simpa using h2⟩
        · exact Or.inl h2
      · exact Or.inr ⟨kd0, List.mem_cons_of_mem _ hkd0, hk, hpr⟩
    · rw [if_neg hs] at h
      rcases ih _ pr h with h1 | ⟨kd0, hkd0, hk, hpr⟩
      · exact Or.inl h1
      · exact Or.inr ⟨kd0, List.mem_cons_of_mem _ hkd0, hk, hpr⟩

theorem mapLookup_mem {m : List (String × String)} {k v : String}
    (h : mapLookup m k = some v) : (k, v) ∈ m := by
  unfold mapLookup at h
  cases hf : m.find? (fun p => p.1 = k) with
  | none => rw [hf] at h; simp at h
  | some pr =>
    rw [hf] at h
    obtain ⟨k0, v0⟩ := pr
    simp at h
    have hm := List.mem_of_find?_eq_some hf
    have hk := List.find?_some hf
    simp at hk
    rw [← h, ← hk]
    exact hm

theorem encOpEdges_mem_aux (tm : List (String × String)) :
    ∀ (l : SymList) (e : GraphEdge),
    e ∈ (foldrI [] l fun (id, sym) acc =>
      if sym.kind = "method" && sym.receiverType ≠ "" then
        match mapLookup tm sym.receiverType with
        | some typeID =>
          (⟨⟨typeID ++ "_encapsulates_" ++ id, "encapsulates", typeID, id,
            []⟩⟩ : GraphEdge) :: acc
        | none => acc
      else acc) →
    ∃ kd ∈ l, kd.2.kind = "method" ∧ kd.2.receiverType ≠ "" ∧
      ∃ tid, mapLookup tm kd.2.receiverType = some tid ∧
        e.data.source = tid ∧ e.data.target = kd.1 := by
  intro l
  induction l with
  | nil => intro e h; simp [foldrI] at h
  | cons kd rest ih =>
    intro e h
    simp only [foldrI] at h ih
    obtain ⟨id, sym⟩ := kd
    simp only [List.foldr_cons] at h
    by_cases hm : (sym.kind = "method" && sym.receiverType ≠ "") = true
    · rw [if_pos hm] at h
      cases hl : mapLookup tm sym.receiverType with
      | none =>
        rw [hl] at h
        obtain ⟨kd0, hkd0, hrest⟩ := ih e h
        exact ⟨kd0, List.mem_cons_of_mem _ hkd0, hrest⟩
      | some tid =>
        rw [hl] at h
        rcases List.mem_cons.mp h with rfl | h1
        · simp only [Bool.and_eq_true, decide_eq_true_eq] at hm
          refine ⟨(id, sym), by simp, hm.1, by simpa using hm.2, tid, hl,
            rfl, rfl⟩
        · obtain ⟨kd0, hkd0, hrest⟩ := ih e h1
          exact ⟨kd0, List.mem_cons_of_mem _ hkd0, hrest⟩
    · rw [if_neg hm] at h
      obtain ⟨kd0, hkd0, hrest⟩ := ih e h
      exact ⟨kd0, List.mem_cons_of_mem _ hkd0, hrest⟩

theorem encOpEdges_mem (symbols : SymList) (e : GraphEdge)
    (h : e ∈ GenerateTypeEncapsulatesOperationEdges symbols) :
    ∃ kd ∈ symbols, kd.2.kind = "method" ∧ kd.2.receiverType ≠ "" ∧
      ∃ tid, mapLookup (encOpTypeMap symbols) kd.2.receiverType = some tid ∧
        e.data.source = tid ∧ e.data.target = kd.1 :=
  encOpEdges_mem_aux (encOpTypeMap symbols) symbols e h

theorem genFsNodes_seen :
    ∀ (walk : List FSEntry) (seen : List String) (s : String),
    s ∈ (genFsNodes walk seen).2 →
    s ∈ seen ∨ s ∈ nodeIds (genFsNodes walk seen).1 := by
  intro walk
  induction walk with
  | nil => intro seen s h; exact Or.inl h
  | cons e rest ih =>
    intro seen s h
    by_cases h1 : (e.isDir && pathBase e.path = "intermediate_representation")
        = true
    · rw [show genFsNodes (e :: rest) seen = genFsNodes rest seen from by
        rw [genFsNodes, if_pos h1]] at h ⊢
      exact ih seen s h
    · by_cases h2 : e.isDir = true
      · by_cases h3 : (toNodeID e.path) ∈ seen
        · rw [show genFsNodes (e :: rest) seen = genFsNodes rest seen from by
            rw [genFsNodes, if_neg h1, if_pos h2,
              if_pos (List.elem_iff.mpr h3)]] at h ⊢
          exact ih seen s h
        · rcases hg : genFsNodes rest (toNodeID e.path :: seen)
            with ⟨ns, seen2⟩
          have hseen : ¬ (seen.contains (toNodeID e.path) = true) := by
            rw [List.elem_iff]; exact h3
          have heq : genFsNodes (e :: rest) seen =
              (⟨⟨toNodeID e.path, ["Folder"],
                [("qualifiedName", e.path),
                 ("simpleName", pathBase e.path)]⟩⟩ :: ns, seen2) := by
            rw [genFsNodes, if_neg h1, if_pos h2, if_neg hseen, hg]
          rw [heq] at h ⊢
          rcases ih _ s (by rw [hg]; exact h) with h4 | h4
          · rcases List.mem_cons.mp h4 with rfl | h5
            · exact Or.inr (by simp [nodeIds])
            · exact Or.inl h5
          · exact Or.inr (by
              simp only [nodeIds, List.map_cons, List.mem_cons]
              right
              rw [hg] at h4
              exact h4)
      · by_cases h4 : listEndsWith e.path.toList ".go".toList = true
        · by_cases h3 : (toNodeID (e.path ++ ".go")) ∈ seen
          · rw [show genFsNodes (e :: rest) seen = genFsNodes rest seen
              from by
                rw [genFsNodes, if_neg h1, if_neg (by simp [h2]), if_pos h4,
                  if_pos (List.elem_iff.mpr h3)]] at h ⊢
            exact ih seen s h
          · rcases hg : genFsNodes rest (toNodeID (e.path ++ ".go") :: seen)
              with ⟨ns, seen2⟩
            have hseen : ¬ (seen.contains (toNodeID (e.path ++ ".go")) =
                true) := by
              rw [List.elem_iff]; exact h3
            have heq : genFsNodes (e :: rest) seen =
                (⟨⟨toNodeID (e.path ++ ".go"), ["File"],
                  [("qualifiedName", e.path),
                   ("simpleName", pathBase e.path)]⟩⟩ :: ns, seen2) := by
              rw [genFsNodes, if_neg h1, if_neg (by simp [h2]), if_pos h4,
                if_neg hseen, hg]
            rw [heq] at h ⊢
            rcases ih _ s (by rw [hg]; exact h) with h5 | h5
            · rcases List.mem_cons.mp h5 with rfl | h6
              · exact Or.inr (by simp [nodeIds])
              · exact Or.inl h6
            · exact Or.inr (by
                simp only [nodeIds, List.map_cons, List.mem_cons]
                right
                rw [hg] at h5
                exact h5)
        · rw [show genFsNodes (e :: rest) seen = genFsNodes rest seen from by
            rw [genFsNodes, if_neg h1, if_neg (by simp [h2]),
              if_neg (by simpa using h4)]] at h ⊢
          exact ih seen s h

theorem genDeclNodes_covers :
    ∀ (symbols : SymList) (seen : List String) (k : String) (d : MDI),
    (k, d) ∈ symbols → skipLocal d = false → skipPrimitive d = false →
    toNodeID (posKeyOfDef d) ∈ seen ∨
      toNodeID (posKeyOfDef d) ∈ nodeIds (genDeclNodes symbols seen).1 := by
  intro symbols
  induction symbols with
  | nil => intro seen k d h _ _; simp at h
  | cons kd rest ih =>
    intro seen k d hmem hl hp
    obtain ⟨k0, d0⟩ := kd
    by_cases h1 : skipLocal d0 = true
    · rcases List.mem_cons.mp hmem with heq | hmem2
      · obtain ⟨rfl, rfl⟩ := Prod.mk.injEq .. ▸ heq
        rw [h1] at hl; exact absurd hl (by simp)
      · rw [show genDeclNodes ((k0, d0) :: rest) seen =
          genDeclNodes rest seen from by simp [genDeclNodes, h1]]
        exact ih seen k d hmem2 hl hp
    · rw [Bool.not_eq_true] at h1
      by_cases h2 : toNodeID (posKeyOfDef d0) ∈ seen
      · rw [show genDeclNodes ((k0, d0) :: rest) seen =
          genDeclNodes rest seen from by simp [genDeclNodes, h1, h2]]
        rcases List.mem_cons.mp hmem with heq | hmem2
        · obtain ⟨rfl, rfl⟩ := Prod.mk.injEq .. ▸ heq
          exact Or.inl h2
        · exact ih seen k d hmem2 hl hp
      · by_cases h3 : skipPrimitive d0 = true
        · rcases List.mem_cons.mp hmem with heq | hmem2
          · obtain ⟨rfl, rfl⟩ := Prod.mk.injEq .. ▸ heq
            rw [h3] at hp; exact absurd hp (by simp)
          · rw [show genDeclNodes ((k0, d0) :: rest) seen =
              genDeclNodes rest seen from by simp [genDeclNodes, h1, h2, h3]]
            exact ih seen k d hmem2 hl hp
        · rw [Bool.not_eq_true] at h3
          rcases hg : genDeclNodes rest (toNodeID (posKeyOfDef d0) :: seen)
            with ⟨ns, seen2⟩
          rw [show genDeclNodes ((k0, d0) :: rest) seen =
            (mkDeclNode d0 :: ns, seen2) from by
              simp [genDeclNodes, h1, h2, h3, hg]]
          rcases List.mem_cons.mp hmem with heq | hmem2
          · obtain ⟨rfl, rfl⟩ := Prod.mk.injEq .. ▸ heq
            exact Or.inr (by simp [nodeIds, mkDeclNode])
          · rcases ih _ k d hmem2 hl hp with h4 | h4
            · rcases List.mem_cons.mp h4 with heq2 | h5
              · exact Or.inr (by
                  simp only [nodeIds, List.map_cons, List.mem_cons]
                  left
                  rw [heq2, mkDeclNode])
              · exact Or.inl h5
            · exact Or.inr (by
                simp only [nodeIds, List.map_cons, List.mem_cons]
                right
                rw [hg] at h4
                exact h4)

theorem declId_mem_graphNodes (sourceRoot : String) (walk : List FSEntry)
    (symbols : SymList) (sasts : SastList) (k : String) (d : MDI)
    (hkd : (k, d) ∈ symbols) (hl : skipLocal d = false)
    (hp : skipPrimitive d = false) :
    toNodeID (posKeyOfDef d) ∈
      nodeIds (GenerateGraphNodes sourceRoot walk symbols sasts) := by
  rcases hfs : genFsNodes walk [] with ⟨fs, s1⟩
  have hcov := genDeclNodes_covers symbols s1 k d hkd hl hp
  rcases hdn : genDeclNodes symbols s1 with ⟨dns, s2⟩
  rw [hdn] at hcov
  have hfseen := genFsNodes_seen walk []
  rw [hfs] at hfseen
  unfold GenerateGraphNodes
  rw [hfs]
  simp only [hdn, nodeIds, List.map_cons, List.map_append, List.mem_cons,
    List.mem_append]
  rcases hcov with h | h
  · rcases hfseen _ h with h2 | h2
    · simp at h2
    · simp only [nodeIds] at h2
      tauto
  · simp only [nodeIds] at h
    tauto

/-- C2 counterexample.  On `/a/b.go`, `GenerateOperationUsesVariableEdges`
emits a `uses` edge for the `VarUse` of the local variable `x` whose
target — `declaredAt` with line and character each decremented once more —
is the ID of no node emitted by `GenerateGraphNodes` on the same input. -/
theorem c2_counterexample :
    ∃ e ∈ GenerateOperationUsesVariableEdges bSasts bSymbols,
      e.data.label = "uses" ∧
      e.data.target ∉ nodeIds (GenerateGraphNodes "/a" bWalk bSymbols
        bSasts) := by
  decide

/-- C2 amended.  Edge well-formedness holds for the
`TypeEncapsulatesOperation` pass: provided every symbol-table key is the
`posKey` of its entry and a fixed point of `toNodeID`, and no
`struct`/`interface` entry bears a primitive name, both endpoints of every
edge it emits are IDs of nodes emitted by `GenerateGraphNodes`; but it
fails for `GenerateOperationUsesVariableEdges`, whose target for a use
resolved through the 0-based `newNode` path (a local-variable `VarUse`)
is off by one and names no node. -/
theorem c2_amended (sourceRoot : String) (walk : List FSEntry)
    (symbols : SymList) (sasts : SastList)
    (hkeys : ∀ kd ∈ symbols, kd.1 = posKeyOfDef kd.2 ∧ toNodeID kd.1 = kd.1)
    (hprim : ∀ kd ∈ symbols,
      (kd.2.kind = "struct" ∨ kd.2.kind = "interface") →
      isPrimitiveType kd.2.name = false)
    (e : GraphEdge)
    (he : e ∈ GenerateTypeEncapsulatesOperationEdges symbols) :
    e.data.source ∈
      nodeIds (GenerateGraphNodes sourceRoot walk symbols sasts) ∧
    e.data.target ∈
      nodeIds (GenerateGraphNodes sourceRoot walk symbols sasts) := by
  obtain ⟨⟨k, d⟩, hkd, hkind, hrecv, tid, hlook, hsrc, htgt⟩ :=
    encOpEdges_mem symbols e he
  dsimp only at hkind hrecv hlook htgt
  constructor
  · have hin := mapLookup_mem hlook
    rcases encOpTypeMapGo_mem symbols [] _ hin with h0 |
      ⟨⟨k2, d2⟩, hk2, hkind2, hpr⟩
    · simp at h0
    · dsimp only at hkind2 hpr
      have htid : tid = k2 := congrArg Prod.snd hpr
      have hkey2 := hkeys (k2, d2) hk2
      have hl2 : skipLocal d2 = false := by
        rcases hkind2 with hk | hk <;> simp [skipLocal, hk]
      have hp2 : skipPrimitive d2 = false := by
        have hnp := hprim (k2, d2) hk2 hkind2
        simp [skipPrimitive, hnp]
      have hmem := declId_mem_graphNodes sourceRoot walk symbols sasts k2 d2
        hk2 hl2 hp2
      rw [← hkey2.1] at hmem
      rw [hkey2.2] at hmem
      rw [hsrc, htid]
      exact hmem
  · have hkey := hkeys (k, d) hkd
    have hl : skipLocal d = false := by simp [skipLocal, hkind]
    have hp : skipPrimitive d = false := by simp [skipPrimitive, hkind]
    have hmem := declId_mem_graphNodes sourceRoot walk symbols sasts k d
      hkd hl hp
    rw [← hkey.1] at hmem
    rw [hkey.2] at hmem
    rw [htgt]
    exact hmem

/-- Witness for C2 amended: the struct `V` / method `M` table. -/
theorem c2_amended_witness :
    (⟨⟨"file:///a/v.go:1:0_encapsulates_file:///a/v.go:3:0",
      "encapsulates", "file:///a/v.go:1:0", "file:///a/v.go:3:0",
      []⟩⟩ : GraphEdge).data.source ∈
      nodeIds (GenerateGraphNodes "/a" vWalk vSymbols []) ∧
    (⟨⟨"file:///a/v.go:1:0_encapsulates_file:///a/v.go:3:0",
      "encapsulates", "file:///a/v.go:1:0", "file:///a/v.go:3:0",
      []⟩⟩ : GraphEdge).data.target ∈
      nodeIds (GenerateGraphNodes "/a" vWalk vSymbols []) :=
  c2_amended "/a" vWalk vSymbols [] (by decide) (by decide) _ (by decide)

/-- C8 counterexample.  On `/a/b.go` — whose function `F` calls `G`
twice — `GenerateAllEdges` contains the triple
`(F-id, G-id, invokes)` twice: duplicates are not merged. -/
theorem c8_counterexample :
    countTriple ("file:///a/b.go:1:0", "file:///a/b.go:8:0", "invokes")
      (GenerateAllEdges bSasts bSymbols "/a" bWalk) = 2 := by
  decide

/-- C8 amended.  `GenerateAllEdges` performs no deduplication: it is the
plain concatenation of the thirteen passes, so a `(source, target, label)`
triple occurs in its output exactly as many times as the passes emit it —
two pattern matches emitting the same triple yield two edges, not one. -/
theorem c8_amended (sasts : SastList) (symbols : SymList)
    (sourceRoot : String) (walk : List FSEntry)
    (t : String × String × String) :
    countTriple t (GenerateAllEdges sasts symbols sourceRoot walk) =
      countTriple t (GenerateFolderContainsEdges sourceRoot walk) +
      countTriple t (GenerateFileDeclaresScopeEdges sasts) +
      countTriple t (GenerateFileDeclaresEdges symbols) +
      countTriple t (GenerateInvokesEdges sasts symbols) +
      countTriple t (GenerateReturnsEdges sasts symbols) +
      countTriple t (GenerateParameterizesEdges sasts symbols) +
      countTriple t (GenerateTypeEncapsulatesVariableEdges sasts) +
      countTriple t (GenerateTypeEncapsulatesOperationEdges symbols) +
      countTriple t (GenerateTypedEdges symbols) +
      countTriple t (GenerateScopeEnclosesTypeEdges symbols) +
      countTriple t (GenerateOperationUsesVariableEdges sasts symbols) +
      countTriple t (GenerateRequiresEdges sasts) +
      countTriple t (GenerateProjectIncludesEdges sourceRoot walk) := by
  simp only [GenerateAllEdges, countTriple, List.countP_append]

end Gophers
